import Mathlib

/-!
Verification development for the NewsKG resolution-and-assembly core.

This file gives a shallow embedding, in Lean 4, of the Python modules
`dictionaries/loader.py`, `extractors/entity_resolver.py`,
`extractors/predicate_normalizer.py`, `pipeline/rdf_generator_v2.py`,
`extractors/llm_extractor.py`, `normalize_predicates.py` and
`apply_normalization.py`, together with theorems settling the specified
properties of those modules.

Modelling conventions:
* Python strings are Lean `String` (sequences of Unicode scalar values,
  matching CPython's code-point view of `str`).
* Python dicts are insertion-ordered association lists; assignment to an
  existing key overwrites the value in place, a new key is appended.
* `hashlib.md5(...).hexdigest()` is implemented bit-faithfully below
  (UTF-8 encoding, RFC 1321 padding and rounds, lower-case hex output).
* Python `str.strip` / the regex class `\s` are modelled on the common
  whitespace characters (ASCII whitespace, NBSP and the ideographic
  space U+3000); all inputs used in concrete theorems stay inside this
  fragment, where the model agrees with CPython exactly.
-/

namespace NewsKG

/-- Whitespace test modelling Python `str.strip()` / `str.isspace()` on the
character fragment used by this repository. -/
def isPySpace (c : Char) : Bool :=
  c = ' ' || c = '\t' || c = '\n' || c = '\r' || c = '\x0b' || c = '\x0c' ||
  c = ' ' || c = '　'

/-- Python `str.strip()`: remove leading and trailing whitespace. -/
def pyStrip (s : String) : String :=
  String.mk (((s.data.dropWhile isPySpace).reverse.dropWhile isPySpace).reverse)

/-- Python substring containment, the expression `sub in s` on strings. -/
def pyContains (s sub : String) : Bool :=
  (List.range (s.data.length + 1)).any (fun i => sub.data.isPrefixOf (s.data.drop i))

/-- Python `s.endswith(suffix)`. -/
def pyEndsWith (s suffix : String) : Bool :=
  suffix.data.isSuffixOf s.data

/-- Removal of a trailing `suffix` when present, modelling
`re.sub(pattern + chr(36), chr(39)*2, s)` for a literal end-anchored pattern. -/
def pyDropSuffix (s suffix : String) : String :=
  if pyEndsWith s suffix then String.mk (s.data.take (s.data.length - suffix.data.length))
  else s

/-- UTF-8 encoding of one Unicode scalar value, as produced by Python
`str.encode()`. -/
def utf8Bytes (c : Char) : List Nat :=
  let n := c.toNat
  if n < 0x80 then [n]
  else if n < 0x800 then [0xC0 + n / 64, 0x80 + n % 64]
  else if n < 0x10000 then [0xE0 + n / 4096, 0x80 + (n / 64) % 64, 0x80 + n % 64]
  else [0xF0 + n / 262144, 0x80 + (n / 4096) % 64, 0x80 + (n / 64) % 64, 0x80 + n % 64]

/-- UTF-8 byte sequence of a string. -/
def strBytes (s : String) : List Nat :=
  s.data.foldr (fun c acc => utf8Bytes c ++ acc) []

/-- Round constants of MD5 (RFC 1321, `K[i] = floor(2^32 * abs(sin(i+1)))`). -/
def md5K : List Nat := [
  0xd76aa478, 0xe8c7b756, 0x242070db, 0xc1bdceee,
  0xf57c0faf, 0x4787c62a, 0xa8304613, 0xfd469501,
  0x698098d8, 0x8b44f7af, 0xffff5bb1, 0x895cd7be,
  0x6b901122, 0xfd987193, 0xa679438e, 0x49b40821,
  0xf61e2562, 0xc040b340, 0x265e5a51, 0xe9b6c7aa,
  0xd62f105d, 0x02441453, 0xd8a1e681, 0xe7d3fbc8,
  0x21e1cde6, 0xc33707d6, 0xf4d50d87, 0x455a14ed,
  0xa9e3e905, 0xfcefa3f8, 0x676f02d9, 0x8d2a4c8a,
  0xfffa3942, 0x8771f681, 0x6d9d6122, 0xfde5380c,
  0xa4beea44, 0x4bdecfa9, 0xf6bb4b60, 0xbebfbc70,
  0x289b7ec6, 0xeaa127fa, 0xd4ef3085, 0x04881d05,
  0xd9d4d039, 0xe6db99e5, 0x1fa27cf8, 0xc4ac5665,
  0xf4292244, 0x432aff97, 0xab9423a7, 0xfc93a039,
  0x655b59c3, 0x8f0ccc92, 0xffeff47d, 0x85845dd1,
  0x6fa87e4f, 0xfe2ce6e0, 0xa3014314, 0x4e0811a1,
  0xf7537e82, 0xbd3af235, 0x2ad7d2bb, 0xeb86d391]

/-- Per-round left-rotation amounts of MD5. -/
def md5S : List Nat := [
  7, 12, 17, 22, 7, 12, 17, 22, 7, 12, 17, 22, 7, 12, 17, 22,
  5, 9, 14, 20, 5, 9, 14, 20, 5, 9, 14, 20, 5, 9, 14, 20,
  4, 11, 16, 23, 4, 11, 16, 23, 4, 11, 16, 23, 4, 11, 16, 23,
  6, 10, 15, 21, 6, 10, 15, 21, 6, 10, 15, 21, 6, 10, 15, 21]

/-- 32-bit left rotation on `Nat` values below `2^32`. -/
def rotl32 (x n : Nat) : Nat :=
  Nat.lor (Nat.shiftLeft x n % 4294967296) (Nat.shiftRight x (32 - n))

/-- Little-endian byte decomposition, `k` bytes of `n`. -/
def leBytes (k n : Nat) : List Nat :=
  (List.range k).map (fun i => (n / 256 ^ i) % 256)

/-- MD5 padding: append `0x80`, zero bytes to 56 mod 64, then the bit
length as 8 little-endian bytes. -/
def md5Pad (msg : List Nat) : List Nat :=
  msg ++ [0x80] ++ List.replicate ((56 + 64 - (msg.length + 1) % 64) % 64) 0
      ++ leBytes 8 (8 * msg.length % 18446744073709551616)

/-- Little-endian 32-bit word `g` of a 64-byte block. -/
def wordAt (block : List Nat) (g : Nat) : Nat :=
  block.getD (4 * g) 0 + 256 * block.getD (4 * g + 1) 0 +
  65536 * block.getD (4 * g + 2) 0 + 16777216 * block.getD (4 * g + 3) 0

/-- One of the 64 MD5 rounds. -/
def md5Step (block : List Nat) (st : Nat × Nat × Nat × Nat) (i : Nat) :
    Nat × Nat × Nat × Nat :=
  let a := st.1
  let b := st.2.1
  let c := st.2.2.1
  let d := st.2.2.2
  let f :=
    if i < 16 then Nat.lor (Nat.land b c) (Nat.land (4294967295 - b) d)
    else if i < 32 then Nat.lor (Nat.land d b) (Nat.land (4294967295 - d) c)
    else if i < 48 then Nat.xor b (Nat.xor c d)
    else Nat.xor c (Nat.lor b (4294967295 - d))
  let g :=
    if i < 16 then i
    else if i < 32 then (5 * i + 1) % 16
    else if i < 48 then (3 * i + 5) % 16
    else (7 * i) % 16
  let f2 := (f + a + md5K.getD i 0 + wordAt block g) % 4294967296
  (d, (b + rotl32 f2 (md5S.getD i 0)) % 4294967296, b, c)

/-- Compression of one 64-byte block into the running MD5 state. -/
def md5Block (st : Nat × Nat × Nat × Nat) (block : List Nat) :
    Nat × Nat × Nat × Nat :=
  let r := (List.range 64).foldl (md5Step block) st
  ((st.1 + r.1) % 4294967296, (st.2.1 + r.2.1) % 4294967296,
   (st.2.2.1 + r.2.2.1) % 4294967296, (st.2.2.2 + r.2.2.2) % 4294967296)

/-- Iteration of `md5Block` over `n` consecutive 64-byte blocks. -/
def md5Blocks : Nat → List Nat → (Nat × Nat × Nat × Nat) → Nat × Nat × Nat × Nat
  | 0, _, st => st
  | n + 1, bytes, st => md5Blocks n (bytes.drop 64) (md5Block st (bytes.take 64))

/-- Lower-case hexadecimal digit. -/
def hexDigit (n : Nat) : Char :=
  "0123456789abcdef".data.getD n '0'

/-- Two-character lower-case hexadecimal rendering of one byte. -/
def byteHex (n : Nat) : List Char :=
  [hexDigit (n / 16), hexDigit (n % 16)]

/-- Model of Python `hashlib.md5(s.encode()).hexdigest()`. -/
def md5Hex (s : String) : String :=
  let msg := md5Pad (strBytes s)
  let r := md5Blocks (msg.length / 64) msg (0x67452301, 0xefcdab89, 0x98badcfe, 0x10325476)
  String.mk ((leBytes 4 r.1 ++ leBytes 4 r.2.1 ++ leBytes 4 r.2.2.1 ++ leBytes 4 r.2.2.2).foldr
    (fun b8 acc => byteHex b8 ++ acc) [])

/-! ## Python dict and Counter models

Python dicts preserve insertion order; assignment to an existing key
overwrites the value in place, a new key is appended at the end. -/

/-- Lookup in an insertion-ordered association list (Python `d.get(k)` /
`d[k]`). -/
def dictGet {α : Type} (d : List (String × α)) (k : String) : Option α :=
  (d.find? (fun p => p.1 == k)).map (·.2)

/-- Assignment `d[k] = v` with Python dict semantics. -/
def dictAssign {α : Type} (d : List (String × α)) (k : String) (v : α) :
    List (String × α) :=
  if d.any (fun p => p.1 == k) then d.map (fun p => if p.1 == k then (k, v) else p)
  else d ++ [(k, v)]

/-- Key list of a dict, in insertion order (Python `d.keys()`). -/
def dictKeys {α : Type} (d : List (String × α)) : List String :=
  d.map (·.1)

/-- Python `Counter[k] += 1`. -/
def counterBump (c : List (String × Nat)) (k : String) : List (String × Nat) :=
  if c.any (fun p => p.1 == k) then c.map (fun p => if p.1 == k then (p.1, p.2 + 1) else p)
  else c ++ [(k, 1)]

/-! ## DictionaryLoader (`dictionaries/loader.py`) -/

/-- Record shape of `loader.DictionaryEntry` (the `extra` map carries no
behaviour used by the specified operations and is omitted). -/
structure DictionaryEntry where
  id : String
  label : String
  aliases : List String
  entity_type : String
  deriving DecidableEq, Repr

/-- State of a `DictionaryLoader`: the `_text_to_entity` search dict and the
`get_all_entries()` view (organizations, then persons, then places, in
load order). -/
structure LoaderState where
  textToEntity : List (String × DictionaryEntry)
  allEntries : List DictionaryEntry
  deriving DecidableEq, Repr

/-- Registration of one entry in `_text_to_entity`
(`DictionaryLoader._register_text_mapping`): the label, then each
non-empty alias. -/
def registerTextMapping (d : List (String × DictionaryEntry))
    (entry : DictionaryEntry) : List (String × DictionaryEntry) :=
  entry.aliases.foldl
    (fun acc al => if al ≠ "" then dictAssign acc al entry else acc)
    (dictAssign d entry.label entry)

/-- Loader state built from a list of entries in load order, as
`DictionaryLoader._load_all` does. -/
def loadEntries (entries : List DictionaryEntry) : LoaderState :=
  { textToEntity := entries.foldl registerTextMapping [],
    allEntries := entries }

/-- Exact lookup `DictionaryLoader.find_entity`. -/
def findEntity (loader : LoaderState) (text : String) : Option DictionaryEntry :=
  dictGet loader.textToEntity text

/-- Python `text.find(key, start)` restricted to a found result: the least
index `i ≥ start` at which `key` occurs in `text`, if any. -/
def pyFindFrom (text key : List Char) (start : Nat) : Option Nat :=
  (List.range (text.length + 1)).find?
    (fun i => decide (start ≤ i) && key.isPrefixOf (text.drop i))

/-- Accumulator of `DictionaryLoader.find_entities_in_text`: the `results`
list and the `matched_positions` span collection. -/
structure ScanState where
  results : List (Nat × Nat × DictionaryEntry)
  matched : List (Nat × Nat)
  deriving Repr

/-- Overlap test used by `find_entities_in_text`:
`pos < mp_end and end_pos > mp_start`. -/
def spanOverlaps (pos endPos : Nat) (span : Nat × Nat) : Bool :=
  decide (pos < span.2) && decide (endPos > span.1)

/-- Inner `while True` loop of `find_entities_in_text` for one candidate
key, with an explicit fuel bound (the loop advances `start` strictly, so
`text.length + 2` iterations always suffice). -/
def scanKeyLoop (text key : List Char) (entry : DictionaryEntry) :
    Nat → Nat → ScanState → ScanState
  | 0, _, st => st
  | fuel + 1, start, st =>
    match pyFindFrom text key start with
    | none => st
    | some pos =>
      let endPos := pos + key.length
      let st2 :=
        if st.matched.any (spanOverlaps pos endPos) then st
        else { results := st.results ++ [(pos, endPos, entry)],
               matched := st.matched ++ [(pos, endPos)] }
      scanKeyLoop text key entry fuel (pos + 1) st2

/-- One iteration of the outer `for key in sorted_keys` loop of
`find_entities_in_text`: look the key up and run the inner scan. -/
def scanStep (loader : LoaderState) (text : String) (st : ScanState)
    (key : String) : ScanState :=
  match dictGet loader.textToEntity key with
  | none => st
  | some entry => scanKeyLoop text.data key.data entry (text.data.length + 2) 0 st

/-- Model of `DictionaryLoader.find_entities_in_text`: greedy
longest-key-first non-overlapping scan, results sorted by start position.
`List.mergeSort` is a stable sort, like CPython's `sorted` and
`list.sort`; `sorted(keys, key=len, reverse=True)` keeps equal-length
keys in dict insertion order, which the comparator below reproduces. -/
def findEntitiesInText (loader : LoaderState) (text : String) :
    List (Nat × Nat × DictionaryEntry) :=
  let sortedKeys :=
    (dictKeys loader.textToEntity).mergeSort
      (fun a b => decide (b.length ≤ a.length))
  let st := sortedKeys.foldl (scanStep loader text) { results := [], matched := [] }
  st.results.mergeSort (fun a b => decide (a.1 ≤ b.1))

/-! ## EntityResolver (`extractors/entity_resolver.py`) -/

/-- Result record of a resolution (`entity_resolver.ResolvedEntity`).
Matching confidences are exact decimal constants in the source, modelled
as rationals. -/
structure ResolvedEntity where
  id : String
  label : String
  entity_type : String
  original_text : String
  is_known : Bool
  confidence : ℚ
  deriving DecidableEq, Repr

/-- URI of a resolved entity (`ResolvedEntity.to_uri`). -/
def toUri (e : ResolvedEntity) (baseNs : String) : String :=
  baseNs ++ e.entity_type ++ "_" ++ e.id

/-- Honorific and role suffixes stripped by
`EntityResolver._clean_entity_text`, in source order. -/
def honorifics : List String :=
  ["氏", "さん", "様", "君", "大統領", "首相", "総理", "総裁", "代表",
   "議員", "知事", "市長", "社長", "会長", "大臣", "長官", "委員長"]

/-- Model of `EntityResolver._clean_entity_text`: sequentially delete each
end-anchored suffix pattern, then strip. -/
def cleanEntityText (text : String) : String :=
  pyStrip (honorifics.foldl pyDropSuffix text)

/-- Per-entry qualification test of the partial-match loop in
`EntityResolver._find_partial_match`, with its confidence. -/
def entryPartialConf (text : String) (entry : DictionaryEntry) : Option ℚ :=
  if pyContains text entry.label then some (8/10)
  else if pyContains entry.label text then some (7/10)
  else if entry.aliases.any (fun al => pyContains text al || pyContains al text)
    then some (3/4)
  else none

/-- Model of `EntityResolver._find_partial_match`. -/
def findPartialMatch (loader : LoaderState) (text : String) :
    Option (DictionaryEntry × ℚ) :=
  let cleaned := cleanEntityText text
  let viaCleaned : Option (DictionaryEntry × ℚ) :=
    if cleaned ≠ text then
      match findEntity loader cleaned with
      | some entry => some (entry, 9/10)
      | none => none
    else none
  match viaCleaned with
  | some r => some r
  | none =>
    loader.allEntries.findSome?
      (fun entry => (entryPartialConf text entry).map (fun c => (entry, c)))

/-- Organization suffix patterns of `EntityResolver._infer_entity_type`. -/
def orgSuffixes : List String :=
  ["党", "省", "庁", "社", "銀行", "大学", "会", "機構", "協会", "連盟", "委員会"]

/-- Place suffix patterns of `EntityResolver._infer_entity_type`. -/
def placeSuffixes : List String :=
  ["県", "市", "区", "町", "村", "国", "州", "島", "山", "川", "湖"]

/-- Person indicators of `EntityResolver._infer_entity_type`. -/
def personIndicators : List String := ["氏", "さん", "大統領", "首相", "議員"]

/-- Model of `EntityResolver._infer_entity_type`. -/
def inferEntityType (text : String) : String :=
  if orgSuffixes.any (pyEndsWith text) then "organization"
  else if placeSuffixes.any (pyEndsWith text) then "place"
  else if personIndicators.any (pyContains text) then "person"
  else "other"

/-- Safe-identifier alphabet of the regex `[a-zA-Z0-9_]`. -/
def isSafeIdChar (c : Char) : Bool :=
  ('a' ≤ c && c ≤ 'z') || ('A' ≤ c && c ≤ 'Z') || ('0' ≤ c && c ≤ '9') || c = '_'

/-- Model of `EntityResolver._generate_id`: ASCII-safe text is lower-cased
with spaces replaced by underscores, any other text gets an 8-hex-digit
MD5 based id. -/
def generateId (text : String) : String :=
  let hashVal := (md5Hex text).take 8
  if text.data ≠ [] && text.data.all isSafeIdChar then
    String.mk ((text.data.map Char.toLower).map (fun c => if c = ' ' then '_' else c))
  else "entity_" ++ hashVal

/-- State owned by one `EntityResolver` instance: the dictionary loader and
the batch-scoped new-entity registry `new_entities`. -/
structure ResolverState where
  loader : LoaderState
  newEntities : List (String × ResolvedEntity)
  deriving Repr

/-- Model of `EntityResolver._create_new_entity`. -/
def createNewEntity (st : ResolverState) (text entity_type : String) :
    ResolvedEntity × ResolverState :=
  let entityId := generateId text
  let ty := if entity_type = "other" then inferEntityType text else entity_type
  let entity : ResolvedEntity :=
    { id := entityId, label := text, entity_type := ty,
      original_text := text, is_known := false, confidence := 1/2 }
  (entity, { st with newEntities := dictAssign st.newEntities entityId entity })

/-- Model of `EntityResolver.resolve`. -/
def resolve (st : ResolverState) (text entity_type : String) :
    ResolvedEntity × ResolverState :=
  if pyStrip text = "" then
    ({ id := "unknown", label := "不明", entity_type := "other",
       original_text := text, is_known := false, confidence := 0 }, st)
  else
    let t := pyStrip text
    match findEntity st.loader t with
    | some entry =>
      ({ id := entry.id, label := entry.label, entity_type := entry.entity_type,
         original_text := t, is_known := true, confidence := 1 }, st)
    | none =>
      match findPartialMatch st.loader t with
      | some (entry, conf) =>
        ({ id := entry.id, label := entry.label, entity_type := entry.entity_type,
           original_text := t, is_known := true, confidence := conf }, st)
      | none => createNewEntity st t entity_type

/-! ## PredicateNormalizer (`extractors/predicate_normalizer.py`) -/

/-- Catalog entry (`predicate_normalizer.PredicateEntry`), which is also the
record shape persisted in the predicate-master file. -/
structure PredicateEntry where
  id : String
  label : String
  aliases : List String
  category : String
  deriving DecidableEq, Repr

/-- State of a `PredicateNormalizer`: the `predicates` dict, the
`alias_to_id` dict, and the `unknown_predicates` counter. -/
structure NormalizerState where
  predicates : List (String × PredicateEntry)
  aliasToId : List (String × String)
  unknownPredicates : List (String × Nat)
  deriving DecidableEq, Repr

/-- Label access `self.predicates[pid].label`; the states used in this
development always hold `pid`, where the access cannot raise. -/
def labelOf (st : NormalizerState) (pid : String) : String :=
  ((dictGet st.predicates pid).getD
    { id := "", label := "", aliases := [], category := "" }).label

/-- State built by `PredicateNormalizer._load_master` from the list of
records in the predicate-master file. -/
def loadMaster (master : List PredicateEntry) : NormalizerState :=
  master.foldl
    (fun st p =>
      { predicates := dictAssign st.predicates p.id p,
        aliasToId :=
          p.aliases.foldl (fun a al => dictAssign a al p.id)
            (dictAssign st.aliasToId p.label p.id),
        unknownPredicates := st.unknownPredicates })
    { predicates := [], aliasToId := [], unknownPredicates := [] }

/-- Model of `PredicateNormalizer.normalize`: exact match on label or alias,
then the containment fallback over `alias_to_id` in insertion order, else
record the text in the unknown-predicate counter and echo it. -/
def normalize (st : NormalizerState) (predicate : String) :
    (String × String) × NormalizerState :=
  match dictGet st.aliasToId predicate with
  | some pid => ((pid, labelOf st pid), st)
  | none =>
    match st.aliasToId.findSome?
      (fun p => if pyContains predicate p.1 || pyContains p.1 predicate
                then some p.2 else none) with
    | some pid => ((pid, labelOf st pid), st)
    | none =>
      ((predicate, predicate),
       { st with unknownPredicates := counterBump st.unknownPredicates predicate })

/-- Model of `PredicateNormalizer.add_predicate`. -/
def addPredicate (st : NormalizerState) (id label : String)
    (aliases : List String) (category : String) : NormalizerState :=
  let entry : PredicateEntry := { id := id, label := label, aliases := aliases, category := category }
  { predicates := dictAssign st.predicates id entry,
    aliasToId :=
      aliases.foldl (fun a al => dictAssign a al id)
        (dictAssign st.aliasToId label id),
    unknownPredicates := st.unknownPredicates }

/-! ## Catalog merge and persistence
(`normalize_predicates.py`, `predicate_normalizer.py`) -/

/-- Merge group proposed by the clustering collaborator
(`groups` records in `normalize_predicates.py`). -/
structure MergeGroup where
  canonical : String
  members : List String
  category : String
  deriving DecidableEq, Repr

/-- Id derivation of `update_master_dictionary`:
`canonical.replace(chr(32), chr(95)).replace(middle_dot, chr(95)).lower()`. -/
def deriveId (canonical : String) : String :=
  String.mk (((canonical.data.map (fun c => if c = ' ' then '_' else c)).map
    (fun c => if c = '・' then '_' else c)).map Char.toLower)

/-- One step of the merge loop in `update_master_dictionary`, acting on the
accumulated `(predicates, existing_ids, added_count)` state. -/
def mergeStep (acc : List PredicateEntry × List String × Nat) (g : MergeGroup) :
    List PredicateEntry × List String × Nat :=
  if g.canonical = "" then acc
  else
    let predId := deriveId g.canonical
    if predId ∈ acc.2.1 then acc
    else (acc.1 ++
      [{ id := predId, label := g.canonical,
         aliases := g.members.filter (fun mem => mem ≠ g.canonical),
         category := g.category }],
      acc.2.1 ++ [predId], acc.2.2 + 1)

/-- Model of `update_master_dictionary` (before the final file write): the
updated predicate list and the added count. -/
def updateMaster (master : List PredicateEntry) (groups : List MergeGroup) :
    List PredicateEntry × Nat :=
  let r := groups.foldl mergeStep (master, master.map PredicateEntry.id, 0)
  (r.1, r.2.2)

/-- JSON string literal for strings free of characters that `json.dump`
escapes; every fixture in this file stays inside that fragment. -/
def jsonStr (s : String) : String := "\x22" ++ s ++ "\x22"

/-- Rendering of an alias array as `json.dump(..., indent=2)` nests it. -/
def serializeAliases (aliases : List String) : String :=
  match aliases with
  | [] => "[]"
  | _ => "[\n" ++
      String.intercalate ",\n" (aliases.map (fun a => "        " ++ jsonStr a)) ++
      "\n      ]"

/-- Rendering of one predicate record as `json.dump(..., indent=2)` does. -/
def serializeEntry (p : PredicateEntry) : String :=
  "    \x7b\n      \x22id\x22: " ++ jsonStr p.id ++
  ",\n      \x22label\x22: " ++ jsonStr p.label ++
  ",\n      \x22aliases\x22: " ++ serializeAliases p.aliases ++
  ",\n      \x22category\x22: " ++ jsonStr p.category ++ "\n    \x7d"

/-- Serialization of the whole master file,
`json.dump(data, f, ensure_ascii=False, indent=2)` on
`data = (dict with the single key predicates)`. -/
def serializeMaster (master : List PredicateEntry) : String :=
  match master with
  | [] => "\x7b\n  \x22predicates\x22: []\n\x7d"
  | _ => "\x7b\n  \x22predicates\x22: [\n" ++
      String.intercalate ",\n" (master.map serializeEntry) ++ "\n  ]\n\x7d"

/-- Effect of `PredicateNormalizer.save_master` (equally of the final write
in `update_master_dictionary`) on the durable master file: CPython opens
the path with mode `w`, truncating the previous content immediately, then
streams the `json.dump` output. `interrupt = some k` models a failure
after `k` characters were written; `none` models a completed write. The
previous durable content is destroyed by the truncation either way. -/
def saveMasterEffect (previous : String) (master : List PredicateEntry)
    (interrupt : Option Nat) : String :=
  match interrupt with
  | none => serializeMaster master
  | some k => (serializeMaster master).take k

/-! ## Triple-based RDF generation
(`extractors/llm_extractor.py`, `pipeline/rdf_generator_v2.py`) -/

/-- Raw extracted triple (`llm_extractor.Triple`). The confidence float is
carried, never computed with, and is modelled as a rational; the
`datetime` timestamp is carried as its ISO rendering. -/
structure Triple where
  subject : String
  subject_type : String
  predicate : String
  object : String
  object_type : String
  confidence : ℚ
  source_article_id : Option String
  extraction_timestamp : String
  deriving DecidableEq, Repr

/-- Model of `Triple.get_id`: the first 12 hex characters of the MD5 of
`subject + underscore + predicate + underscore + object`. -/
def tripleGetId (t : Triple) : String :=
  (md5Hex (t.subject ++ "_" ++ t.predicate ++ "_" ++ t.object)).take 12

/-- Object position of an RDF statement: a URI reference or one of the
literal forms the generator emits. -/
inductive RdfObj where
  | uri (u : String)
  | litJa (s : String)
  | litDec (q : ℚ)
  | litDt (iso : String)
  deriving DecidableEq, Repr

/-- RDF statement `(subject uri, predicate uri, object)`. -/
abbrev RdfStmt := String × String × RdfObj

/-- Namespace `NEWSKG` bound by the generator. -/
def NS : String := "http://example.org/newskg#"

/-- Namespace of `rdflib.namespace.RDF`. -/
def RDFNS : String := "http://www.w3.org/1999/02/22-rdf-syntax-ns#"

/-- `RDF.type`. -/
def rdfType : String := RDFNS ++ "type"

/-- `RDF.subject`. -/
def rdfSubject : String := RDFNS ++ "subject"

/-- `RDF.predicate`. -/
def rdfPredicate : String := RDFNS ++ "predicate"

/-- `RDF.object`. -/
def rdfObject : String := RDFNS ++ "object"

/-- `RDF.Property`. -/
def rdfProperty : String := RDFNS ++ "Property"

/-- `RDFS.label`. -/
def rdfsLabel : String := "http://www.w3.org/2000/01/rdf-schema#label"

/-- Set-semantics insertion into an `rdflib.Graph` (`graph.add`): a
statement already present is not duplicated. -/
def addStmt (g : List RdfStmt) (s : RdfStmt) : List RdfStmt :=
  if s ∈ g then g else g ++ [s]

/-- Class chosen by `add_entity` for an entity type
(`type_class_map.get(entity_type, NEWSKG.Entity)`). -/
def typeClassMap (t : String) : String :=
  if t = "organization" then NS ++ "Organization"
  else if t = "person" then NS ++ "Person"
  else if t = "place" then NS ++ "Place"
  else if t = "event" then NS ++ "Event"
  else NS ++ "Entity"

/-- State owned by one `TripleBasedRDFGenerator`: the graph, the two
collaborator states, and the `entity_cache` / `triple_cache` /
`predicate_uris` caches. -/
structure GenState where
  graph : List RdfStmt
  resolver : ResolverState
  normalizer : NormalizerState
  entityCache : List String
  tripleCache : List String
  predicateUris : List (String × String)
  deriving Repr

/-- Fresh generator over given collaborator states (`__init__`). -/
def initGenState (resolver : ResolverState) (normalizer : NormalizerState) :
    GenState :=
  { graph := [], resolver := resolver, normalizer := normalizer,
    entityCache := [], tripleCache := [], predicateUris := [] }

/-- Model of `TripleBasedRDFGenerator.add_entity`. -/
def addEntity (st : GenState) (e : ResolvedEntity) : String × GenState :=
  let entityUri := toUri e NS
  if entityUri ∈ st.entityCache then (entityUri, st)
  else
    let g1 := addStmt st.graph (entityUri, rdfType, .uri (typeClassMap e.entity_type))
    let g2 := addStmt g1 (entityUri, NS ++ "hasLabel", .litJa e.label)
    let g3 := if e.original_text ≠ e.label
              then addStmt g2 (entityUri, NS ++ "hasAlias", .litJa e.original_text)
              else g2
    (entityUri, { st with entityCache := st.entityCache ++ [entityUri], graph := g3 })

/-- Model of `TripleBasedRDFGenerator._make_safe_uri_part`. -/
def makeSafeUriPart (text : String) : String :=
  if text.data ≠ [] && text.data.all isSafeIdChar then
    String.mk (text.data.map Char.toLower)
  else "pred_" ++ (md5Hex text).take 8

/-- Model of `TripleBasedRDFGenerator._get_predicate_uri`. -/
def getPredicateUri (st : GenState) (predicate : String) : String × GenState :=
  let r := normalize st.normalizer predicate
  let st1 := { st with normalizer := r.2 }
  match dictGet st.predicateUris r.1.1 with
  | some u => (u, st1)
  | none =>
    let predUri := NS ++ "rel_" ++ makeSafeUriPart r.1.1
    let g1 := addStmt st1.graph (predUri, rdfType, .uri rdfProperty)
    let g2 := addStmt g1 (predUri, rdfsLabel, .litJa r.1.2)
    let st2 := { st1 with graph := g2 }
    (predUri, { st2 with predicateUris := dictAssign st2.predicateUris r.1.1 predUri })

/-- Reified-triple URI for a dedup key. -/
def tripleUriOf (tid : String) : String := NS ++ "triple_" ++ tid

/-- First phase of `TripleBasedRDFGenerator.add_triple` (lines before the
dedup check): resolve subject and object, add their entity nodes, fetch
the predicate URI, and add the direct relation. Returns
`(subjectUri, predicateUri, objectUri, state)`. -/
def addTriplePrep (st : GenState) (t : Triple) :
    String × String × String × GenState :=
  let rs := resolve st.resolver t.subject t.subject_type
  let ro := resolve rs.2 t.object t.object_type
  let ae1 := addEntity { st with resolver := ro.2 } rs.1
  let ae2 := addEntity ae1.2 ro.1
  let pu := getPredicateUri ae2.2 t.predicate
  (ae1.1, pu.1, ae2.1,
   { pu.2 with graph := addStmt pu.2.graph (ae1.1, pu.1, .uri ae2.1) })

/-- Reification phase of `add_triple`, reached only on a fresh dedup key:
register the key and attach the `NewsTriple` node with its subject,
predicate, object, confidence, provenance and extraction time. -/
def reifyPhase (st : GenState) (t : Triple) (articleUri : Option String)
    (sUri pUri oUri : String) : GenState :=
  let tUri := tripleUriOf (tripleGetId t)
  let g2 := addStmt st.graph (tUri, rdfType, .uri (NS ++ "NewsTriple"))
  let g3 := addStmt g2 (tUri, rdfSubject, .uri sUri)
  let g4 := addStmt g3 (tUri, rdfPredicate, .uri pUri)
  let g5 := addStmt g4 (tUri, rdfObject, .uri oUri)
  let g6 := addStmt g5 (tUri, NS ++ "hasConfidence", .litDec t.confidence)
  let g7 := match articleUri with
    | some a => addStmt g6 (tUri, NS ++ "extractedFrom", .uri a)
    | none => g6
  let g8 := addStmt g7 (tUri, NS ++ "extractedAt", .litDt t.extraction_timestamp)
  { st with tripleCache := st.tripleCache ++ [tripleGetId t], graph := g8 }

/-- Model of `TripleBasedRDFGenerator.add_triple`, the composition of the
two phases around the `triple_cache` dedup check. -/
def addTriple (st : GenState) (t : Triple) (articleUri : Option String) :
    String × GenState :=
  let p := addTriplePrep st t
  if tripleGetId t ∈ p.2.2.2.tripleCache then (tripleUriOf (tripleGetId t), p.2.2.2)
  else (tripleUriOf (tripleGetId t), reifyPhase p.2.2.2 t articleUri p.1 p.2.1 p.2.2.1)

/-! ## Retroactive rewrite (`apply_normalization.py`)

`apply_normalization_to_rdf` streams the RDF file line by line; on each
line containing `newskg:hasLabel` it walks the original→normalized
mapping in insertion order and, for each pair whose sides differ whose
pattern `newskg:hasLabel\s+"original"@ja` occurs in the current line,
substitutes every occurrence by `newskg:hasLabel "normalized"@ja` and
counts one replacement. Lines are modelled as `List Char`; `re`
whitespace is modelled on the ASCII class, which covers every character
the serializer emits. -/

/-- Python `\s` on the ASCII whitespace characters. -/
def pySpace (c : Char) : Bool :=
  c = ' ' || c = '\t' || c = '\n' || c = '\r' || c = '\x0B' || c = '\x0C'

/-- Strip a literal prefix, returning the rest on success. -/
def stripPrefixChars : List Char → List Char → Option (List Char)
  | [], cs => some cs
  | _ :: _, [] => none
  | p :: ps, c :: cs => if p = c then stripPrefixChars ps cs else none

/-- The literal head of the compiled pattern
`newskg:hasLabel\s+"original"@ja`. -/
def hasLabelLit : List Char := "newskg:hasLabel".data

/-- Match the compiled pattern for one original label at the head of
`cs`: the literal, a nonempty whitespace run, then the quoted label and
`@ja`; returns the rest after the match. Greedy `\s+` followed by `"`
matches exactly the maximal whitespace run, since `"` is not
whitespace. -/
def matchPat (orig cs : List Char) : Option (List Char) :=
  match stripPrefixChars hasLabelLit cs with
  | none => none
  | some r1 =>
    if r1.takeWhile pySpace = [] then none
    else stripPrefixChars ('"' :: (orig ++ ('"' :: "@ja".data))) (r1.dropWhile pySpace)

/-- The substitution text `newskg:hasLabel "normalized"@ja`. -/
def patReplacement (norm : List Char) : List Char :=
  "newskg:hasLabel ".data ++ ('"' :: (norm ++ ('"' :: "@ja".data)))

/-- `pattern.sub`: replace every non-overlapping occurrence left to
right; `re.sub` does not rescan substituted text. Fuel-based: every step
consumes at least one input character, so `cs.length` steps always
suffice. -/
def subAllAux (orig norm : List Char) : Nat → List Char → List Char
  | 0, cs => cs
  | fuel + 1, cs =>
    match matchPat orig cs with
    | some rest => patReplacement norm ++ subAllAux orig norm fuel rest
    | none =>
      match cs with
      | [] => []
      | c :: cs2 => c :: subAllAux orig norm fuel cs2

/-- `pattern.search`: does the pattern match at some position? -/
def searchPat (orig : List Char) : List Char → Bool
  | [] => (matchPat orig []).isSome
  | c :: cs => (matchPat orig (c :: cs)).isSome || searchPat orig cs

/-- Python substring containment `needle in hay`. -/
def pyIn (needle : List Char) : List Char → Bool
  | [] => needle.isEmpty
  | c :: cs => needle.isPrefixOf (c :: cs) || pyIn needle cs

/-- Body of the `for original_label, normalized_label in
all_mappings.items()` loop of `apply_normalization_to_rdf`: skip pairs
whose sides agree, substitute and count when the pattern occurs. -/
def applyEntry (acc : List Char × Nat) (kv : String × String) :
    List Char × Nat :=
  if kv.1 = kv.2 then acc
  else if searchPat kv.1.data acc.1 then
    (subAllAux kv.1.data kv.2.data acc.1.length acc.1, acc.2 + 1)
  else acc

/-- Per-line rewrite of `apply_normalization_to_rdf`: the mapping is
walked only on lines containing `newskg:hasLabel`. -/
def applyLine (mapping : List (String × String)) (line : List Char) :
    List Char × Nat :=
  if pyIn hasLabelLit line then mapping.foldl applyEntry (line, 0)
  else (line, 0)

/-- Model of `apply_normalization_to_rdf`: stream the corpus line by
line, rewriting each and accumulating the replacement count. -/
def applyNormalizationToRdf (mapping : List (String × String))
    (corpus : List (List Char)) : List (List Char) × Nat :=
  corpus.foldl
    (fun acc line =>
      let r := applyLine mapping line
      (acc.1 ++ [r.1], acc.2 + r.2))
    ([], 0)

/-- The tail of a label line in the serializer's canonical shape: the
literal, one space, the quoted label and `@ja`, then the rest of the
line. -/
def canonTail (L suf : List Char) : List Char :=
  hasLabelLit ++ (' ' :: ('"' :: (L ++ ('"' :: ("@ja".data ++ suf)))))

/-- A canonical label line: arbitrary prefix, then the canonical tail. -/
def canonHasLabelLine (pre L suf : List Char) : List Char :=
  pre ++ canonTail L suf

/-! # Concrete fixtures used by closed theorems -/

/-- Loader over an empty dictionary directory. -/
def emptyLoader : LoaderState := loadEntries []

/-- Predicate catalog holding the single entry `visit`. -/
def visitEntry : PredicateEntry :=
  { id := "visit", label := "visit", aliases := [], category := "diplomacy" }

/-- Normalizer state loaded from a master holding only `visitEntry`. -/
def visitState : NormalizerState := loadMaster [visitEntry]

/-- Resolver over the empty dictionary with an empty new-entity registry. -/
def freshResolver : ResolverState := { loader := emptyLoader, newEntities := [] }

/-- Dictionary with one person entry `p1` labelled `AB` with alias `AB2`. -/
def c1Loader : LoaderState :=
  loadEntries [{ id := "p1", label := "AB", aliases := ["AB2"], entity_type := "person" }]

/-- Resolver over `c1Loader`. -/
def c1Resolver : ResolverState := { loader := c1Loader, newEntities := [] }

/-- Fresh generator over `c1Resolver` and an empty predicate catalog. -/
def c1Gen : GenState := initGenState c1Resolver (loadMaster [])

/-- Raw triple `AB met CD` with confidence 0.9. -/
def c1T1 : Triple :=
  { subject := "AB", subject_type := "person", predicate := "met",
    object := "CD", object_type := "person", confidence := 9/10,
    source_article_id := none, extraction_timestamp := "2024-01-01T00:00:00" }

/-- The same raw texts as `c1T1` with different confidence and timestamp. -/
def c1T2 : Triple :=
  { c1T1 with confidence := 1/10, extraction_timestamp := "2024-02-02T00:00:00" }

/-- The same raw texts as `c1T1` from another source. -/
def c1T3 : Triple := { c1T1 with confidence := 3/10, source_article_id := some "doc9" }

/-- A raw triple whose subject text `AB2` is an alias resolving to the same
entity as the subject of `c1T1`. -/
def c2T : Triple := { c1T1 with subject := "AB2" }

/-- Chained rewrite mapping: `B → C` listed before `A → B`. -/
def c9Mapping : List (String × String) := [("B", "C"), ("A", "B")]

/-- One-line corpus holding the canonical label line for `A`. -/
def c9Corpus : List (List Char) := [("newskg:hasLabel \"A\"@ja").data]

/-! # Theorems -/

/-- Containment-fallback condition of `normalize`, as a Boolean. -/
def containmentHit (st : NormalizerState) (p : String) : Bool :=
  (st.aliasToId.findSome?
    (fun q => if pyContains p q.1 || pyContains q.1 p then some q.2 else none)).isSome

/-- C10: `PredicateNormalizer.normalize` never mutates the catalog: the
predicates map and the alias-to-id map are unchanged by every call; the
unknown-predicate counter is bumped exactly when the input matches
neither exactly nor through the containment fallback, and is unchanged
otherwise. -/
theorem C10_normalize_frame (st : NormalizerState) (p : String) :
    (normalize st p).2.predicates = st.predicates ∧
    (normalize st p).2.aliasToId = st.aliasToId ∧
    (normalize st p).2.unknownPredicates =
      (if (dictGet st.aliasToId p).isSome || containmentHit st p
       then st.unknownPredicates
       else counterBump st.unknownPredicates p) := by
  unfold normalize containmentHit
  cases h1 : dictGet st.aliasToId p with
  | some pid => simp [h1]
  | none =>
    cases h2 : st.aliasToId.findSome?
      (fun q => if pyContains p q.1 || pyContains q.1 p then some q.2 else none) with
    | some pid => simp [h2]
    | none => simp [h2]

/-- C3 counterexample: with a catalog holding exactly the entry
`visit` (label `visit`, no aliases), the text `visits` has no exact match
on any label or alias, yet `normalize` returns `(visit, visit)` through
the containment fallback and leaves the unknown-predicate counter empty,
contradicting the claim that every exact-match miss increments the
counter and echoes the input. -/
theorem C3_counterexample :
    dictGet visitState.aliasToId "visits" = none ∧
    (normalize visitState "visits").1 = ("visit", "visit") ∧
    (normalize visitState "visits").1 ≠ ("visits", "visits") ∧
    (normalize visitState "visits").2.unknownPredicates = [] := by decide

/-- C3 amended: exact match on label or alias returns that entry's id and
label with the whole state unchanged; with no exact match, the first
alias-map entry (in insertion order) whose key contains or is contained
in the input is returned, again with the state unchanged; only when
neither lookup succeeds does `normalize` echo the input and increment the
unknown-predicate counter keyed by the raw text, never failing. -/
theorem C3_amended (st : NormalizerState) (p : String) :
    (∀ pid, dictGet st.aliasToId p = some pid →
      normalize st p = ((pid, labelOf st pid), st)) ∧
    (∀ pid, dictGet st.aliasToId p = none →
      st.aliasToId.findSome?
        (fun q => if pyContains p q.1 || pyContains q.1 p then some q.2 else none) = some pid →
      normalize st p = ((pid, labelOf st pid), st)) ∧
    (dictGet st.aliasToId p = none →
      st.aliasToId.findSome?
        (fun q => if pyContains p q.1 || pyContains q.1 p then some q.2 else none) = none →
      normalize st p = ((p, p),
        { st with unknownPredicates := counterBump st.unknownPredicates p })) := by
  refine ⟨fun pid h1 => ?_, fun pid h1 h2 => ?_, fun h1 h2 => ?_⟩
  · unfold normalize; rw [h1]
  · unfold normalize; rw [h1, h2]
  · unfold normalize; rw [h1, h2]

/-- C3 witness: the amended theorem applied at the concrete `visit`
catalog, on an exact hit, a containment hit and a miss. -/
theorem C3_witness :
    normalize visitState "visit" = (("visit", "visit"), visitState) ∧
    normalize visitState "visits" = (("visit", "visit"), visitState) ∧
    normalize visitState "met" = (("met", "met"),
      { visitState with unknownPredicates := [("met", 1)] }) :=
  ⟨(C3_amended visitState "visit").1 "visit" (by decide),
   (C3_amended visitState "visits").2.1 "visit" (by decide) (by decide),
   (C3_amended visitState "met").2.2 (by decide) (by decide)⟩

/-- C4 counterexample: the sentinel returned for empty or whitespace-only
input carries the Japanese label `不明`, not the label `unknown` stated
by the claim (all other sentinel fields agree with the claim). -/
theorem C4_counterexample :
    (resolve freshResolver "" "person").1.label = "不明" ∧
    (resolve freshResolver "" "person").1.label ≠ "unknown" ∧
    (resolve freshResolver "  " "other").1.label ≠ "unknown" := by decide

/-- C4 amended: for every input that is empty or whitespace-only,
`resolve` returns the sentinel with id `unknown`, label `不明`, type
`other`, `is_known = false` and confidence 0, leaving the resolver state
unchanged and raising no error (the embedding is a total function). -/
theorem C4_amended (st : ResolverState) (text hint : String)
    (h : pyStrip text = "") :
    resolve st text hint =
      ({ id := "unknown", label := "不明", entity_type := "other",
         original_text := text, is_known := false, confidence := 0 }, st) := by
  simp [resolve, h]

/-- C4 witness: the amended theorem applied to the empty string and to a
whitespace-only string (ASCII blank and ideographic space). -/
theorem C4_witness :
    resolve freshResolver "" "person" =
      ({ id := "unknown", label := "不明", entity_type := "other",
         original_text := "", is_known := false, confidence := 0 }, freshResolver) ∧
    resolve freshResolver " 　 " "place" =
      ({ id := "unknown", label := "不明", entity_type := "other",
         original_text := " 　 ", is_known := false, confidence := 0 }, freshResolver) :=
  ⟨C4_amended freshResolver "" "person" (by decide),
   C4_amended freshResolver " 　 " "place" (by decide)⟩

/-- Helper: on a non-blank text with no exact and no partial dictionary
match, `resolve` falls through to `_create_new_entity`. -/
theorem resolve_unknown_eq (st : ResolverState) (text hint : String)
    (hne : pyStrip text ≠ "")
    (hexact : findEntity st.loader (pyStrip text) = none)
    (hpmatch : findPartialMatch st.loader (pyStrip text) = none) :
    resolve st text hint = createNewEntity st (pyStrip text) hint := by
  unfold resolve
  rw [if_neg hne]
  simp only [hexact, hpmatch]

/-- Helper: one merge step only ever appends records. -/
theorem mergeStep_fst_append (acc : List PredicateEntry × List String × Nat)
    (g : MergeGroup) : ∃ rest, (mergeStep acc g).1 = acc.1 ++ rest := by
  unfold mergeStep
  by_cases h1 : g.canonical = ""
  · rw [if_pos h1]; exact ⟨[], by simp⟩
  · rw [if_neg h1]
    by_cases h2 : deriveId g.canonical ∈ acc.2.1
    · simp only [if_pos h2]; exact ⟨[], by simp⟩
    · simp only [if_neg h2]; exact ⟨_, rfl⟩

/-- Helper: the merge loop only ever appends records. -/
theorem foldl_mergeStep_append (groups : List MergeGroup) :
    ∀ acc, ∃ rest, (groups.foldl mergeStep acc).1 = acc.1 ++ rest := by
  induction groups with
  | nil => exact fun acc => ⟨[], by simp⟩
  | cons g gs ih =>
    intro acc
    obtain ⟨r1, h1⟩ := mergeStep_fst_append acc g
    obtain ⟨r2, h2⟩ := ih (mergeStep acc g)
    exact ⟨r1 ++ r2, by rw [List.foldl_cons, h2, h1, List.append_assoc]⟩

/-- Helper: a successful `find?` is unaffected by appending. -/
theorem find?_append_left {α : Type} (p : α → Bool) (l₁ l₂ : List α)
    (h : (l₁.find? p).isSome) : (l₁ ++ l₂).find? p = l₁.find? p := by
  induction l₁ with
  | nil => simp [List.find?] at h
  | cons a l ih =>
    by_cases hp : p a
    · rw [List.cons_append, List.find?_cons_of_pos _ hp, List.find?_cons_of_pos _ hp]
    · rw [List.cons_append, List.find?_cons_of_neg _ hp, List.find?_cons_of_neg _ hp]
      apply ih
      rwa [List.find?_cons_of_neg _ hp] at h

/-- C6: in a merge batch, each group's id is derived from its canonical
label; a group whose derived id already exists is skipped and the
catalog's record for any pre-existing id is left unchanged by the whole
batch; a group with a fresh id adds exactly one record carrying the
canonical label and the members minus the canonical as aliases. On the
concrete example, `visit-jp-word` normalizes to itself before the merge
and to `(visit, visit)` after merging
`(canonical visit, members [visit-jp-word], category diplomacy)`. -/
theorem C6_merge_groups (master : List PredicateEntry) (g : MergeGroup)
    (hne : g.canonical ≠ "") :
    (deriveId g.canonical ∈ master.map PredicateEntry.id →
      updateMaster master [g] = (master, 0)) ∧
    (∀ i groups, i ∈ master.map PredicateEntry.id →
      (updateMaster master groups).1.find? (fun e => e.id == i) =
        master.find? (fun e => e.id == i)) ∧
    (deriveId g.canonical ∉ master.map PredicateEntry.id →
      updateMaster master [g] =
        (master ++ [{ id := deriveId g.canonical, label := g.canonical,
                      aliases := g.members.filter (fun mem => mem ≠ g.canonical),
                      category := g.category }], 1)) ∧
    (normalize (loadMaster []) "visit-jp-word").1 = ("visit-jp-word", "visit-jp-word") ∧
    (normalize (loadMaster (updateMaster []
        [{ canonical := "visit", members := ["visit-jp-word"], category := "diplomacy" }]).1)
      "visit-jp-word").1 = ("visit", "visit") := by
  refine ⟨fun hmem => ?_, fun i groups hmem => ?_, fun hmem => ?_, by decide, by decide⟩
  · unfold updateMaster
    rw [List.foldl_cons, List.foldl_nil]
    unfold mergeStep
    rw [if_neg hne, if_pos hmem]
  · obtain ⟨rest, hr⟩ := foldl_mergeStep_append groups (master, master.map PredicateEntry.id, 0)
    have hsome : (master.find? (fun e => e.id == i)).isSome := by
      rw [List.find?_isSome]
      obtain ⟨e, he, heq⟩ := List.mem_map.mp hmem
      exact ⟨e, he, by simp [heq]⟩
    unfold updateMaster
    simp only
    rw [hr, find?_append_left _ _ _ hsome]
  · unfold updateMaster
    rw [List.foldl_cons, List.foldl_nil]
    unfold mergeStep
    rw [if_neg hne, if_neg hmem]

/-- C6 witness: the theorem applied to the one-entry `visit` catalog — a
group re-deriving the existing id `visit` is skipped with the record
untouched, and a fresh group `Met With` is appended. -/
theorem C6_witness :
    updateMaster [visitEntry]
      [{ canonical := "Visit", members := ["visit-jp-word"], category := "diplomacy" }] =
      ([visitEntry], 0) ∧
    (updateMaster [visitEntry]
        [{ canonical := "Met With", members := ["met"], category := "diplomacy" }]).1.find?
        (fun e => e.id == "visit") =
      [visitEntry].find? (fun e => e.id == "visit") ∧
    updateMaster [visitEntry]
      [{ canonical := "Met With", members := ["met"], category := "diplomacy" }] =
      ([visitEntry, { id := "met_with", label := "Met With", aliases := ["met"],
                      category := "diplomacy" }], 1) := by
  refine ⟨?_, ?_, ?_⟩
  · exact (C6_merge_groups [visitEntry]
      { canonical := "Visit", members := ["visit-jp-word"], category := "diplomacy" }
      (by decide)).1 (by decide)
  · exact (C6_merge_groups [visitEntry]
      { canonical := "Met With", members := ["met"], category := "diplomacy" }
      (by decide)).2.1 "visit"
      [{ canonical := "Met With", members := ["met"], category := "diplomacy" }] (by decide)
  · have h := (C6_merge_groups [visitEntry]
      { canonical := "Met With", members := ["met"], category := "diplomacy" }
      (by decide)).2.2.1 (by decide)
    rw [h]; rfl

set_option maxRecDepth 8192 in
/-- C7: persistence of the predicate catalog is not atomic — `save_master`
truncates the master file and streams `json.dump` output, so a failure
one character into the write leaves a file that is neither the previous
durable catalog nor the complete merged catalog, contradicting the
write-succeeds-entirely-or-not-at-all requirement. -/
theorem C7_save_not_atomic :
    saveMasterEffect (serializeMaster []) [visitEntry] (some 1) = "\x7b" ∧
    saveMasterEffect (serializeMaster []) [visitEntry] (some 1) ≠ serializeMaster [] ∧
    saveMasterEffect (serializeMaster []) [visitEntry] (some 1) ≠
      serializeMaster [visitEntry] ∧
    saveMasterEffect (serializeMaster []) [visitEntry] none =
      serializeMaster [visitEntry] := by decide

/-- C8: when a stripped non-blank text matches no dictionary entry, the
minted id is `generateId` of the stripped text — a function of the text
alone, lower-casing and underscore-joining safe-alphabet text and
otherwise truncating a fixed content hash — so two resolver instances
over the same dictionary snapshot that never shared a new-entity
registry return the same id, the same type and confidence 0.5. -/
theorem C8_new_entity_determinism (loader : LoaderState)
    (reg1 reg2 : List (String × ResolvedEntity)) (text hint : String)
    (hne : pyStrip text ≠ "")
    (hexact : findEntity loader (pyStrip text) = none)
    (hpmatch : findPartialMatch loader (pyStrip text) = none) :
    (resolve { loader := loader, newEntities := reg1 } text hint).1 =
      (resolve { loader := loader, newEntities := reg2 } text hint).1 ∧
    (resolve { loader := loader, newEntities := reg1 } text hint).1.id =
      generateId (pyStrip text) ∧
    (resolve { loader := loader, newEntities := reg1 } text hint).1.confidence = 1/2 ∧
    ((pyStrip text).data.all isSafeIdChar →
      generateId (pyStrip text) =
        String.mk (((pyStrip text).data.map Char.toLower).map
          (fun c => if c = ' ' then '_' else c))) ∧
    (¬ (pyStrip text).data.all isSafeIdChar →
      generateId (pyStrip text) = "entity_" ++ (md5Hex (pyStrip text)).take 8) := by
  have hdata : (pyStrip text).data ≠ [] := by
    intro hnil
    exact hne (show pyStrip text = "" from by
      have hmk : String.mk (pyStrip text).data = String.mk [] := by rw [hnil]
      exact hmk)
  have h1 := resolve_unknown_eq ⟨loader, reg1⟩ text hint hne hexact hpmatch
  have h2 := resolve_unknown_eq ⟨loader, reg2⟩ text hint hne hexact hpmatch
  refine ⟨?_, ?_, ?_, fun hall => ?_, fun hnall => ?_⟩
  · rw [h1, h2]; rfl
  · rw [h1]; rfl
  · rw [h1]; rfl
  · have hc : (decide ((pyStrip text).data ≠ []) &&
        (pyStrip text).data.all isSafeIdChar) = true := by
      simp only [Bool.and_eq_true, decide_eq_true_eq]
      exact ⟨hdata, hall⟩
    unfold generateId; rw [if_pos hc]
  · have hc : ¬ ((decide ((pyStrip text).data ≠ []) &&
        (pyStrip text).data.all isSafeIdChar) = true) := by
      simp only [Bool.and_eq_true, decide_eq_true_eq]
      intro h; exact hnall h.2
    unfold generateId; rw [if_neg hc]

/-- C8 witness: two fresh resolvers over the empty dictionary mint the
identical entity for the unknown mention `Tanaka_Taro` (safe-alphabet
branch, lower-cased id). -/
theorem C8_witness :
    (resolve { loader := emptyLoader, newEntities := [] } "Tanaka_Taro" "person").1 =
      (resolve { loader := emptyLoader,
                 newEntities := [("x", (resolve freshResolver "x" "other").1)] }
        "Tanaka_Taro" "person").1 ∧
    (resolve { loader := emptyLoader, newEntities := [] } "Tanaka_Taro" "person").1.id =
      generateId "Tanaka_Taro" ∧
    (resolve { loader := emptyLoader, newEntities := [] } "Tanaka_Taro" "person").1.confidence = 1/2 ∧
    generateId "Tanaka_Taro" = "tanaka_taro" := by
  have h := C8_new_entity_determinism emptyLoader []
    [("x", (resolve freshResolver "x" "other").1)] "Tanaka_Taro" "person"
    (by decide) (by decide) (by decide)
  refine ⟨h.1, h.2.1, h.2.2.1, ?_⟩
  have hsafe := h.2.2.2.1 (by decide)
  rw [show pyStrip "Tanaka_Taro" = "Tanaka_Taro" from rfl] at hsafe
  rw [hsafe]; decide

/-! ## Helper lemmas on the graph, dict and string models -/

/-- Membership through a set-semantics insertion. -/
theorem mem_addStmt {g : List RdfStmt} {s0 s : RdfStmt} :
    s ∈ addStmt g s0 ↔ s ∈ g ∨ s = s0 := by
  unfold addStmt
  by_cases h : s0 ∈ g
  · rw [if_pos h]
    constructor
    · exact fun hs => Or.inl hs
    · intro hs
      rcases hs with hs | rfl
      · exact hs
      · exact h
  · rw [if_neg h]
    simp [List.mem_append]

/-- Inserting a present statement is a no-op. -/
theorem addStmt_eq_of_mem {g : List RdfStmt} {s0 : RdfStmt} (h : s0 ∈ g) :
    addStmt g s0 = g := by
  unfold addStmt; rw [if_pos h]

/-- The inserted statement is present afterwards. -/
theorem self_mem_addStmt (g : List RdfStmt) (s0 : RdfStmt) : s0 ∈ addStmt g s0 :=
  mem_addStmt.mpr (Or.inr rfl)

/-- Insertion preserves earlier statements. -/
theorem mem_addStmt_of_mem {g : List RdfStmt} {s : RdfStmt} (s0 : RdfStmt)
    (h : s ∈ g) : s ∈ addStmt g s0 :=
  mem_addStmt.mpr (Or.inl h)

/-- Set-semantics insertion preserves distinctness of statements. -/
theorem nodup_addStmt {g : List RdfStmt} (h : g.Nodup) (s0 : RdfStmt) :
    (addStmt g s0).Nodup := by
  unfold addStmt
  by_cases hm : s0 ∈ g
  · rwa [if_pos hm]
  · rw [if_neg hm]
    simp [List.nodup_append, h, hm]

/-- Helper: a failing `find?` is skipped by appending. -/
theorem find?_append_right {α : Type} (p : α → Bool) (l₁ l₂ : List α)
    (h : l₁.find? p = none) : (l₁ ++ l₂).find? p = l₂.find? p := by
  induction l₁ with
  | nil => rfl
  | cons a l ih =>
    by_cases hp : p a
    · rw [List.find?_cons_of_pos _ hp] at h
      exact absurd h (by simp)
    · rw [List.find?_cons_of_neg _ hp] at h
      rw [List.cons_append, List.find?_cons_of_neg _ hp]
      exact ih h

/-- Helper for dict assignment on a present key. -/
theorem find?_map_assign {α : Type} (d : List (String × α)) (k : String) (v : α)
    (h : d.any (fun p => p.1 == k) = true) :
    (d.map (fun p => if p.1 == k then (k, v) else p)).find? (fun p => p.1 == k) =
      some (k, v) := by
  induction d with
  | nil => simp at h
  | cons p rest ih =>
    cases hp : (p.1 == k) with
    | true =>
      rw [List.map_cons, if_pos hp]
      simp [List.find?]
    | false =>
      have h2 : rest.any (fun p => p.1 == k) = true := by
        rcases List.any_eq_true.mp h with ⟨x, hx, hpx⟩
        rcases List.mem_cons.mp hx with rfl | hx2
        · rw [hp] at hpx; exact absurd hpx (by simp)
        · exact List.any_eq_true.mpr ⟨x, hx2, hpx⟩
      rw [List.map_cons, if_neg (by simp [hp])]
      simp only [List.find?, hp]
      exact ih h2

/-- Python dict semantics: after `d[k] = v`, looking up `k` yields `v`. -/
theorem dictGet_dictAssign_self {α : Type} (d : List (String × α)) (k : String)
    (v : α) : dictGet (dictAssign d k v) k = some v := by
  unfold dictGet dictAssign
  by_cases h : d.any (fun p => p.1 == k)
  · rw [if_pos h, find?_map_assign d k v h]
    rfl
  · rw [if_neg h]
    have hn : d.find? (fun p => p.1 == k) = none := by
      rw [List.find?_eq_none]
      intro x hx hpx
      exact h (List.any_eq_true.mpr ⟨x, hx, hpx⟩)
    rw [find?_append_right _ _ _ hn]
    simp [List.find?]

/-- Python dict semantics: `d[k] = v` does not disturb other keys. -/
theorem dictGet_dictAssign_ne {α : Type} (d : List (String × α)) {k k' : String}
    (v : α) (h : k' ≠ k) : dictGet (dictAssign d k v) k' = dictGet d k' := by
  unfold dictGet dictAssign
  by_cases ha : d.any (fun p => p.1 == k)
  · rw [if_pos ha]
    congr 1
    clear ha
    induction d with
    | nil => rfl
    | cons p rest ih =>
      cases hp : (p.1 == k) with
      | true =>
        have hk : p.1 = k := by simpa using hp
        have hk1 : (k == k') = false := by simp [Ne.symm h]
        have hk2 : (p.1 == k') = false := by simp [hk, Ne.symm h]
        rw [List.map_cons, if_pos hp]
        simp only [List.find?, hk1, hk2]
        exact ih
      | false =>
        rw [List.map_cons, if_neg (by simp [hp])]
        cases hq : (p.1 == k') with
        | true => simp [List.find?, hq]
        | false =>
          simp only [List.find?, hq]
          exact ih
  · rw [if_neg ha]
    by_cases hq : (d.find? (fun p => p.1 == k')).isSome
    · rw [find?_append_left _ _ _ hq]
    · rw [Option.not_isSome_iff_eq_none] at hq
      rw [find?_append_right _ _ _ hq, hq]
      have hkk : (k == k') = false := by simp [Ne.symm h]
      simp [List.find?, hkk]

/-- Strings differing at a position inside the left part of an
append differ as strings. -/
theorem append_ne_of_getD (p x q : String) (i : Nat)
    (hi : i < p.data.length) (hne : p.data.getD i ' ' ≠ q.data.getD i ' ') :
    p ++ x ≠ q := by
  intro h
  have hd : (p ++ x).data = q.data := congrArg String.data h
  rw [String.data_append] at hd
  have h2 : (p.data ++ x.data).getD i ' ' = q.data.getD i ' ' := by rw [hd]
  rw [List.getD_append _ _ _ _ hi] at h2
  exact hne h2

/-- Predicate URIs minted by the generator differ from any target string
that deviates inside the fixed `rel_` prefix. -/
theorem relUri_ne (x q : String) (i : Nat) (hi : i < (NS ++ "rel_").data.length)
    (hne : (NS ++ "rel_").data.getD i ' ' ≠ q.data.getD i ' ') :
    NS ++ "rel_" ++ x ≠ q :=
  append_ne_of_getD (NS ++ "rel_") x q i hi hne

/-- Entity classes of `add_entity` never name the reified-triple class. -/
theorem typeClassMap_ne_newsTriple (ty : String) :
    typeClassMap ty ≠ NS ++ "NewsTriple" := by
  unfold typeClassMap
  split_ifs <;> decide

/-- Entity URIs contain an underscore after the namespace, so they never
equal the `NewsTriple` class URI. -/
theorem toUri_ne_newsTriple (e : ResolvedEntity) :
    toUri e NS ≠ NS ++ "NewsTriple" := by
  intro h
  unfold toUri at h
  have hd := congrArg String.data h
  simp only [String.data_append, List.append_assoc] at hd
  have hcancel := List.append_cancel_left hd
  have h2 : '_' ∈ e.entity_type.data ++ (['_'] ++ e.id.data) := by simp
  rw [hcancel] at h2
  simp at h2

/-- Resolution never changes the dictionary loader. -/
theorem resolve_loader (st : ResolverState) (t hint : String) :
    (resolve st t hint).2.loader = st.loader := by
  obtain ⟨l, r⟩ := st
  unfold resolve createNewEntity
  by_cases hb : pyStrip t = ""
  · rw [if_pos hb]
  · rw [if_neg hb]
    dsimp only
    cases hfe : findEntity l (pyStrip t) with
    | some e => rfl
    | none =>
      cases hpm : findPartialMatch l (pyStrip t) with
      | some pr => obtain ⟨e, c⟩ := pr; rfl
      | none => rfl

/-- The resolution value depends only on the loader snapshot, not on the
new-entity registry. -/
theorem resolve_fst_congr (st1 st2 : ResolverState) (h : st1.loader = st2.loader)
    (t hint : String) : (resolve st1 t hint).1 = (resolve st2 t hint).1 := by
  obtain ⟨l1, r1⟩ := st1
  obtain ⟨l2, r2⟩ := st2
  obtain rfl : l1 = l2 := h
  unfold resolve createNewEntity
  by_cases hb : pyStrip t = ""
  · rw [if_pos hb, if_pos hb]
  · rw [if_neg hb, if_neg hb]
    dsimp only
    cases hfe : findEntity l1 (pyStrip t) with
    | some e => rfl
    | none =>
      cases hpm : findPartialMatch l1 (pyStrip t) with
      | some pr => obtain ⟨e, c⟩ := pr; rfl
      | none => rfl

/-- Normalization never changes the catalog maps. -/
theorem normalize_state (st : NormalizerState) (p : String) :
    (normalize st p).2.aliasToId = st.aliasToId ∧
    (normalize st p).2.predicates = st.predicates := by
  unfold normalize
  split
  · exact ⟨rfl, rfl⟩
  · split
    · exact ⟨rfl, rfl⟩
    · exact ⟨rfl, rfl⟩

/-- The normalization value depends only on the catalog maps, not on the
unknown-predicate counter. -/
theorem normalize_fst_congr (st1 st2 : NormalizerState)
    (ha : st1.aliasToId = st2.aliasToId) (hp : st1.predicates = st2.predicates)
    (p : String) : (normalize st1 p).1 = (normalize st2 p).1 := by
  obtain ⟨p1, a1, u1⟩ := st1
  obtain ⟨p2, a2, u2⟩ := st2
  obtain rfl : a1 = a2 := ha
  obtain rfl : p1 = p2 := hp
  unfold normalize labelOf
  cases hfe : dictGet a1 p with
  | some pid => rfl
  | none =>
    cases hfs : a1.findSome?
      (fun q => if pyContains p q.1 || pyContains q.1 p then some q.2 else none) with
    | some pid => rfl
    | none => rfl

/-- Structural facts about `add_entity`: the returned URI, cache
registration and monotonicity, and untouched sibling state. -/
theorem addEntity_fst (st : GenState) (e : ResolvedEntity) :
    (addEntity st e).1 = toUri e NS := by
  unfold addEntity
  dsimp only
  by_cases hc : toUri e NS ∈ st.entityCache
  · rw [if_pos hc]
  · rw [if_neg hc]

/-- Fields of the generator state other than the graph and entity cache are
untouched by `add_entity`. -/
theorem addEntity_fields (st : GenState) (e : ResolvedEntity) :
    (addEntity st e).2.resolver = st.resolver ∧
    (addEntity st e).2.normalizer = st.normalizer ∧
    (addEntity st e).2.tripleCache = st.tripleCache ∧
    (addEntity st e).2.predicateUris = st.predicateUris := by
  unfold addEntity
  dsimp only
  by_cases hc : toUri e NS ∈ st.entityCache
  · rw [if_pos hc]
    exact ⟨rfl, rfl, rfl, rfl⟩
  · rw [if_neg hc]
    split
    · exact ⟨rfl, rfl, rfl, rfl⟩
    · exact ⟨rfl, rfl, rfl, rfl⟩

/-- The entity URI is in the cache after `add_entity`. -/
theorem addEntity_mem_cache (st : GenState) (e : ResolvedEntity) :
    toUri e NS ∈ (addEntity st e).2.entityCache := by
  unfold addEntity
  dsimp only
  by_cases hc : toUri e NS ∈ st.entityCache
  · rw [if_pos hc]
    exact hc
  · rw [if_neg hc]
    split
    · simp
    · simp

/-- `add_entity` never evicts cache entries. -/
theorem addEntity_cache_mono {st : GenState} {u : String} (e : ResolvedEntity)
    (h : u ∈ st.entityCache) : u ∈ (addEntity st e).2.entityCache := by
  unfold addEntity
  dsimp only
  by_cases hc : toUri e NS ∈ st.entityCache
  · rw [if_pos hc]
    exact h
  · rw [if_neg hc]
    split
    · simp [h]
    · simp [h]

/-- On a cache hit `add_entity` is the identity. -/
theorem addEntity_of_mem {st : GenState} {e : ResolvedEntity}
    (h : toUri e NS ∈ st.entityCache) : addEntity st e = (toUri e NS, st) := by
  unfold addEntity
  dsimp only
  rw [if_pos h]

/-- `add_entity` only appends statements. -/
theorem addEntity_graph_mono {st : GenState} {s : RdfStmt} (e : ResolvedEntity)
    (h : s ∈ st.graph) : s ∈ (addEntity st e).2.graph := by
  unfold addEntity
  dsimp only
  by_cases hc : toUri e NS ∈ st.entityCache
  · rw [if_pos hc]
    exact h
  · rw [if_neg hc]
    split
    · exact mem_addStmt_of_mem _ (mem_addStmt_of_mem _ (mem_addStmt_of_mem _ h))
    · exact mem_addStmt_of_mem _ (mem_addStmt_of_mem _ h)

/-- Every statement `add_entity` adds is an entity-typing, label or alias
statement. -/
theorem mem_addEntity_graph {st : GenState} {e : ResolvedEntity} {s : RdfStmt}
    (h : s ∈ (addEntity st e).2.graph) :
    s ∈ st.graph ∨
    (s.2.1 = rdfType ∧ ∃ ty, s.2.2 = RdfObj.uri (typeClassMap ty)) ∨
    s.2.1 = NS ++ "hasLabel" ∨ s.2.1 = NS ++ "hasAlias" := by
  unfold addEntity at h
  dsimp only at h
  by_cases hc : toUri e NS ∈ st.entityCache
  · rw [if_pos hc] at h
    exact Or.inl h
  · rw [if_neg hc] at h
    dsimp only at h
    split at h
    · rcases mem_addStmt.mp h with h2 | rfl
      · rcases mem_addStmt.mp h2 with h3 | rfl
        · rcases mem_addStmt.mp h3 with h4 | rfl
          · exact Or.inl h4
          · exact Or.inr (Or.inl ⟨rfl, e.entity_type, rfl⟩)
        · exact Or.inr (Or.inr (Or.inl rfl))
      · exact Or.inr (Or.inr (Or.inr rfl))
    · rcases mem_addStmt.mp h with h2 | rfl
      · rcases mem_addStmt.mp h2 with h3 | rfl
        · exact Or.inl h3
        · exact Or.inr (Or.inl ⟨rfl, e.entity_type, rfl⟩)
      · exact Or.inr (Or.inr (Or.inl rfl))

/-- `add_entity` preserves distinctness of graph statements. -/
theorem addEntity_nodup {st : GenState} (e : ResolvedEntity)
    (h : st.graph.Nodup) : (addEntity st e).2.graph.Nodup := by
  unfold addEntity
  dsimp only
  by_cases hc : toUri e NS ∈ st.entityCache
  · rw [if_pos hc]
    exact h
  · rw [if_neg hc]
    split
    · exact nodup_addStmt (nodup_addStmt (nodup_addStmt h _) _) _
    · exact nodup_addStmt (nodup_addStmt h _) _

/-- Fields of the generator state other than the graph, the normalizer and
the predicate-URI cache are untouched by `_get_predicate_uri`. -/
theorem getPredicateUri_fields (st : GenState) (p : String) :
    (getPredicateUri st p).2.resolver = st.resolver ∧
    (getPredicateUri st p).2.entityCache = st.entityCache ∧
    (getPredicateUri st p).2.tripleCache = st.tripleCache := by
  unfold getPredicateUri
  dsimp only
  cases hc : dictGet st.predicateUris ((normalize st.normalizer p).1.1) with
  | some u => exact ⟨rfl, rfl, rfl⟩
  | none => exact ⟨rfl, rfl, rfl⟩

/-- The catalog maps survive `_get_predicate_uri` (only the unknown
counter inside the normalizer may change). -/
theorem getPredicateUri_normalizer (st : GenState) (p : String) :
    (getPredicateUri st p).2.normalizer.aliasToId = st.normalizer.aliasToId ∧
    (getPredicateUri st p).2.normalizer.predicates = st.normalizer.predicates := by
  have hs := normalize_state st.normalizer p
  unfold getPredicateUri
  dsimp only
  cases hc : dictGet st.predicateUris ((normalize st.normalizer p).1.1) with
  | some u => exact hs
  | none => exact hs

/-- After `_get_predicate_uri`, the predicate-URI cache maps the
normalized id to the returned URI. -/
theorem getPredicateUri_post (st : GenState) (p : String) :
    dictGet (getPredicateUri st p).2.predicateUris
      ((normalize st.normalizer p).1.1) = some (getPredicateUri st p).1 := by
  unfold getPredicateUri
  dsimp only
  cases hc : dictGet st.predicateUris ((normalize st.normalizer p).1.1) with
  | some u => simpa using hc
  | none => simp [dictGet_dictAssign_self]

/-- Existing predicate-URI cache entries survive `_get_predicate_uri`. -/
theorem getPredicateUri_cache_mono {st : GenState} {k u : String} (p : String)
    (h : dictGet st.predicateUris k = some u) :
    dictGet (getPredicateUri st p).2.predicateUris k = some u := by
  unfold getPredicateUri
  dsimp only
  cases hc : dictGet st.predicateUris ((normalize st.normalizer p).1.1) with
  | some w => simpa using h
  | none =>
    by_cases hk : k = (normalize st.normalizer p).1.1
    · rw [hk] at h; rw [h] at hc; cases hc
    · simpa [dictGet_dictAssign_ne _ _ hk] using h

/-- On a cache hit `_get_predicate_uri` only advances the normalizer. -/
theorem getPredicateUri_cached {st : GenState} {u : String} (p : String)
    (h : dictGet st.predicateUris ((normalize st.normalizer p).1.1) = some u) :
    getPredicateUri st p =
      (u, { st with normalizer := (normalize st.normalizer p).2 }) := by
  unfold getPredicateUri
  dsimp only
  rw [h]

/-- `_get_predicate_uri` only appends statements. -/
theorem getPredicateUri_graph_mono {st : GenState} {s : RdfStmt} (p : String)
    (h : s ∈ st.graph) : s ∈ (getPredicateUri st p).2.graph := by
  unfold getPredicateUri
  dsimp only
  cases hc : dictGet st.predicateUris ((normalize st.normalizer p).1.1) with
  | some u => exact h
  | none => exact mem_addStmt_of_mem _ (mem_addStmt_of_mem _ h)

/-- Every statement `_get_predicate_uri` adds is a property-typing or
property-label statement. -/
theorem mem_getPredicateUri_graph {st : GenState} {p : String} {s : RdfStmt}
    (h : s ∈ (getPredicateUri st p).2.graph) :
    s ∈ st.graph ∨ (s.2.1 = rdfType ∧ s.2.2 = RdfObj.uri rdfProperty) ∨
    s.2.1 = rdfsLabel := by
  unfold getPredicateUri at h
  dsimp only at h
  cases hc : dictGet st.predicateUris ((normalize st.normalizer p).1.1) with
  | some u =>
    rw [hc] at h
    exact Or.inl h
  | none =>
    rw [hc] at h
    rcases mem_addStmt.mp h with h2 | rfl
    · rcases mem_addStmt.mp h2 with h3 | rfl
      · exact Or.inl h3
      · exact Or.inr (Or.inl ⟨rfl, rfl⟩)
    · exact Or.inr (Or.inr rfl)

/-- `_get_predicate_uri` preserves distinctness of graph statements. -/
theorem getPredicateUri_nodup {st : GenState} (p : String)
    (h : st.graph.Nodup) : (getPredicateUri st p).2.graph.Nodup := by
  unfold getPredicateUri
  dsimp only
  cases hc : dictGet st.predicateUris ((normalize st.normalizer p).1.1) with
  | some u => exact h
  | none => exact nodup_addStmt (nodup_addStmt h _) _

/-- The URI returned by `_get_predicate_uri` on a cache miss carries the
`rel_` prefix. -/
theorem getPredicateUri_rel {st : GenState} (p : String)
    (hinv : ∀ k u, dictGet st.predicateUris k = some u → ∃ x, u = NS ++ "rel_" ++ x) :
    ∃ x, (getPredicateUri st p).1 = NS ++ "rel_" ++ x := by
  unfold getPredicateUri
  dsimp only
  cases hc : dictGet st.predicateUris ((normalize st.normalizer p).1.1) with
  | some u => exact hinv _ u hc
  | none => exact ⟨_, rfl⟩

/-- The value returned by `add_triple` is always the reified-triple URI of
the dedup key. -/
theorem addTriple_fst (st : GenState) (t : Triple) (a : Option String) :
    (addTriple st t a).1 = tripleUriOf (tripleGetId t) := by
  unfold addTriple
  dsimp only
  split
  · rfl
  · rfl

/-- Shapes of the statements added by the entity and predicate phases of
`add_triple`. -/
theorem mem_prep_graph {st : GenState} {e1 e2 : ResolvedEntity} {p : String}
    {s : RdfStmt}
    (h : s ∈ (getPredicateUri (addEntity (addEntity st e1).2 e2).2 p).2.graph) :
    s ∈ st.graph ∨
    (s.2.1 = rdfType ∧
      ((∃ ty, s.2.2 = RdfObj.uri (typeClassMap ty)) ∨ s.2.2 = RdfObj.uri rdfProperty)) ∨
    s.2.1 = NS ++ "hasLabel" ∨ s.2.1 = NS ++ "hasAlias" ∨ s.2.1 = rdfsLabel := by
  rcases mem_getPredicateUri_graph h with h1 | h1 | h1
  · rcases mem_addEntity_graph h1 with h2 | h2 | h2 | h2
    · rcases mem_addEntity_graph h2 with h3 | h3 | h3 | h3
      · exact Or.inl h3
      · exact Or.inr (Or.inl ⟨h3.1, Or.inl h3.2⟩)
      · exact Or.inr (Or.inr (Or.inl h3))
      · exact Or.inr (Or.inr (Or.inr (Or.inl h3)))
    · exact Or.inr (Or.inl ⟨h2.1, Or.inl h2.2⟩)
    · exact Or.inr (Or.inr (Or.inl h2))
    · exact Or.inr (Or.inr (Or.inr (Or.inl h2)))
  · exact Or.inr (Or.inl ⟨h1.1, Or.inr h1.2⟩)
  · exact Or.inr (Or.inr (Or.inr (Or.inr h1)))

/-- The predicate URI chosen inside `add_triple` carries the `rel_` prefix
whenever the predicate-URI cache respects that convention. -/
theorem getPredicateUri_rel2 {st0 : GenState} {e1 e2 : ResolvedEntity} (p : String)
    (hinv : ∀ k u, dictGet st0.predicateUris k = some u → ∃ x, u = NS ++ "rel_" ++ x) :
    ∃ x, (getPredicateUri (addEntity (addEntity st0 e1).2 e2).2 p).1 =
      NS ++ "rel_" ++ x := by
  apply getPredicateUri_rel
  intro k u hk
  rw [(addEntity_fields _ _).2.2.2, (addEntity_fields _ _).2.2.2] at hk
  exact hinv k u hk

/-- Sibling state preserved or only renamed by the preparation phase. -/
theorem addTriplePrep_fields (st : GenState) (t : Triple) :
    (addTriplePrep st t).2.2.2.tripleCache = st.tripleCache ∧
    (addTriplePrep st t).2.2.2.resolver.loader = st.resolver.loader ∧
    (addTriplePrep st t).2.2.2.normalizer.aliasToId = st.normalizer.aliasToId ∧
    (addTriplePrep st t).2.2.2.normalizer.predicates = st.normalizer.predicates := by
  unfold addTriplePrep
  dsimp only
  refine ⟨?_, ?_, ?_, ?_⟩
  · rw [(getPredicateUri_fields _ _).2.2, (addEntity_fields _ _).2.2.1,
      (addEntity_fields _ _).2.2.1]
  · rw [(getPredicateUri_fields _ _).1, (addEntity_fields _ _).1,
      (addEntity_fields _ _).1]
    exact (resolve_loader _ _ _).trans (resolve_loader _ _ _)
  · rw [(getPredicateUri_normalizer _ _).1, (addEntity_fields _ _).2.1,
      (addEntity_fields _ _).2.1]
  · rw [(getPredicateUri_normalizer _ _).2, (addEntity_fields _ _).2.1,
      (addEntity_fields _ _).2.1]

/-- The subject and object URIs returned by the preparation phase. -/
theorem addTriplePrep_uris (st : GenState) (t : Triple) :
    (addTriplePrep st t).1 =
      toUri (resolve st.resolver t.subject t.subject_type).1 NS ∧
    (addTriplePrep st t).2.2.1 =
      toUri (resolve (resolve st.resolver t.subject t.subject_type).2
        t.object t.object_type).1 NS := by
  unfold addTriplePrep
  dsimp only
  exact ⟨addEntity_fst _ _, addEntity_fst _ _⟩

/-- Both entity URIs are cached after the preparation phase. -/
theorem addTriplePrep_cache_post (st : GenState) (t : Triple) :
    toUri (resolve st.resolver t.subject t.subject_type).1 NS ∈
      (addTriplePrep st t).2.2.2.entityCache ∧
    toUri (resolve (resolve st.resolver t.subject t.subject_type).2
        t.object t.object_type).1 NS ∈ (addTriplePrep st t).2.2.2.entityCache := by
  unfold addTriplePrep
  dsimp only
  constructor
  · rw [(getPredicateUri_fields _ _).2.1]
    exact addEntity_cache_mono _ (addEntity_mem_cache _ _)
  · rw [(getPredicateUri_fields _ _).2.1]
    exact addEntity_mem_cache _ _

/-- The predicate-URI cache maps the normalized id of this predicate to the
returned predicate URI after the preparation phase. -/
theorem addTriplePrep_pu_post (st : GenState) (t : Triple) :
    dictGet (addTriplePrep st t).2.2.2.predicateUris
      ((normalize st.normalizer t.predicate).1.1) = some (addTriplePrep st t).2.1 := by
  unfold addTriplePrep
  dsimp only
  have h := getPredicateUri_post
    (addEntity (addEntity { st with resolver :=
      (resolve (resolve st.resolver t.subject t.subject_type).2
        t.object t.object_type).2 }
      (resolve st.resolver t.subject t.subject_type).1).2
      (resolve (resolve st.resolver t.subject t.subject_type).2
        t.object t.object_type).1).2 t.predicate
  rw [(addEntity_fields _ _).2.1, (addEntity_fields _ _).2.1] at h
  exact h

/-- Existing predicate-URI cache entries survive the preparation phase. -/
theorem addTriplePrep_pu_mono {st : GenState} {k u : String} (t : Triple)
    (h : dictGet st.predicateUris k = some u) :
    dictGet (addTriplePrep st t).2.2.2.predicateUris k = some u := by
  unfold addTriplePrep
  dsimp only
  apply getPredicateUri_cache_mono
  rw [(addEntity_fields _ _).2.2.2, (addEntity_fields _ _).2.2.2]
  exact h

/-- Cached entity URIs survive the preparation phase. -/
theorem addTriplePrep_cache_mono {st : GenState} {u : String} (t : Triple)
    (h : u ∈ st.entityCache) : u ∈ (addTriplePrep st t).2.2.2.entityCache := by
  unfold addTriplePrep
  dsimp only
  rw [(getPredicateUri_fields _ _).2.1]
  exact addEntity_cache_mono _ (addEntity_cache_mono _ h)

/-- The direct-relation statement is in the graph after the preparation
phase. -/
theorem addTriplePrep_rel_mem (st : GenState) (t : Triple) :
    ((addTriplePrep st t).1, (addTriplePrep st t).2.1,
      RdfObj.uri (addTriplePrep st t).2.2.1) ∈ (addTriplePrep st t).2.2.2.graph := by
  unfold addTriplePrep
  dsimp only
  exact self_mem_addStmt _ _

/-- The preparation phase only appends statements. -/
theorem addTriplePrep_graph_mono {st : GenState} {s : RdfStmt} (t : Triple)
    (h : s ∈ st.graph) : s ∈ (addTriplePrep st t).2.2.2.graph := by
  unfold addTriplePrep
  dsimp only
  exact mem_addStmt_of_mem _ (getPredicateUri_graph_mono _
    (addEntity_graph_mono _ (addEntity_graph_mono _ h)))

/-- The preparation phase preserves distinctness of statements. -/
theorem addTriplePrep_nodup (st : GenState) (t : Triple)
    (h : st.graph.Nodup) : (addTriplePrep st t).2.2.2.graph.Nodup := by
  unfold addTriplePrep
  dsimp only
  apply nodup_addStmt
  apply getPredicateUri_nodup
  apply addEntity_nodup
  apply addEntity_nodup
  exact h

/-- Shape enumeration for the preparation phase. -/
theorem mem_addTriplePrep_graph {st : GenState} {t : Triple} {s : RdfStmt}
    (h : s ∈ (addTriplePrep st t).2.2.2.graph) :
    s ∈ st.graph ∨
    (s.2.1 = rdfType ∧
      ((∃ ty, s.2.2 = RdfObj.uri (typeClassMap ty)) ∨ s.2.2 = RdfObj.uri rdfProperty)) ∨
    s.2.1 = NS ++ "hasLabel" ∨ s.2.1 = NS ++ "hasAlias" ∨ s.2.1 = rdfsLabel ∨
    s.2.1 = (addTriplePrep st t).2.1 := by
  unfold addTriplePrep at h ⊢
  dsimp only at h ⊢
  rcases mem_addStmt.mp h with h2 | rfl
  · rcases mem_prep_graph h2 with h3 | h3 | h3 | h3 | h3
    · exact Or.inl h3
    · exact Or.inr (Or.inl h3)
    · exact Or.inr (Or.inr (Or.inl h3))
    · exact Or.inr (Or.inr (Or.inr (Or.inl h3)))
    · exact Or.inr (Or.inr (Or.inr (Or.inr (Or.inl h3))))
  · exact Or.inr (Or.inr (Or.inr (Or.inr (Or.inr rfl))))

/-- The predicate URI of the preparation phase carries the `rel_` prefix
when the incoming cache respects that convention. -/
theorem addTriplePrep_rel {st : GenState} (t : Triple)
    (hinv : ∀ k u, dictGet st.predicateUris k = some u → ∃ x, u = NS ++ "rel_" ++ x) :
    ∃ x, (addTriplePrep st t).2.1 = NS ++ "rel_" ++ x := by
  unfold addTriplePrep
  dsimp only
  exact getPredicateUri_rel2 t.predicate hinv

/-- Preparation phase on a saturated state: both entity URIs cached, the
predicate id cached, and the relation statement already present — the
phase returns the cached values and leaves the graph and every cache
unchanged. -/
theorem addTriplePrep_saturated (st : GenState) (t : Triple) (u : String)
    (hs : toUri (resolve st.resolver t.subject t.subject_type).1 NS ∈ st.entityCache)
    (ho : toUri (resolve (resolve st.resolver t.subject t.subject_type).2
      t.object t.object_type).1 NS ∈ st.entityCache)
    (hpu : dictGet st.predicateUris
      ((normalize st.normalizer t.predicate).1.1) = some u)
    (hrel : (toUri (resolve st.resolver t.subject t.subject_type).1 NS, u,
      RdfObj.uri (toUri (resolve (resolve st.resolver t.subject t.subject_type).2
        t.object t.object_type).1 NS)) ∈ st.graph) :
    (addTriplePrep st t).2.1 = u ∧
    (addTriplePrep st t).2.2.2.graph = st.graph ∧
    (addTriplePrep st t).2.2.2.entityCache = st.entityCache ∧
    (addTriplePrep st t).2.2.2.predicateUris = st.predicateUris := by
  unfold addTriplePrep
  dsimp only
  rw [addEntity_of_mem (show toUri (resolve st.resolver t.subject t.subject_type).1 NS ∈
    (GenState.entityCache { st with resolver :=
      (resolve (resolve st.resolver t.subject t.subject_type).2
        t.object t.object_type).2 }) from hs)]
  dsimp only
  rw [addEntity_of_mem (show toUri (resolve (resolve st.resolver t.subject
      t.subject_type).2 t.object t.object_type).1 NS ∈
    (GenState.entityCache { st with resolver :=
      (resolve (resolve st.resolver t.subject t.subject_type).2
        t.object t.object_type).2 }) from ho)]
  dsimp only
  rw [getPredicateUri_cached t.predicate (show dictGet (GenState.predicateUris
    { st with resolver := (resolve (resolve st.resolver t.subject t.subject_type).2
      t.object t.object_type).2 })
    ((normalize (GenState.normalizer { st with resolver :=
      (resolve (resolve st.resolver t.subject t.subject_type).2
        t.object t.object_type).2 }) t.predicate).1.1) = some u from hpu)]
  dsimp only
  refine ⟨rfl, ?_, rfl, rfl⟩
  exact addStmt_eq_of_mem hrel

/-- Fields untouched by the reification phase. -/
theorem reifyPhase_fields (st : GenState) (t : Triple) (a : Option String)
    (sUri pUri oUri : String) :
    (reifyPhase st t a sUri pUri oUri).resolver = st.resolver ∧
    (reifyPhase st t a sUri pUri oUri).normalizer = st.normalizer ∧
    (reifyPhase st t a sUri pUri oUri).entityCache = st.entityCache ∧
    (reifyPhase st t a sUri pUri oUri).predicateUris = st.predicateUris ∧
    (reifyPhase st t a sUri pUri oUri).tripleCache =
      st.tripleCache ++ [tripleGetId t] := by
  unfold reifyPhase
  exact ⟨rfl, rfl, rfl, rfl, rfl⟩

/-- The reification phase only appends statements. -/
theorem reifyPhase_graph_mono {st : GenState} {s : RdfStmt} (t : Triple)
    (a : Option String) (sUri pUri oUri : String)
    (h : s ∈ st.graph) : s ∈ (reifyPhase st t a sUri pUri oUri).graph := by
  unfold reifyPhase
  dsimp only
  cases a with
  | none =>
    exact mem_addStmt_of_mem _ (mem_addStmt_of_mem _ (mem_addStmt_of_mem _
      (mem_addStmt_of_mem _ (mem_addStmt_of_mem _ (mem_addStmt_of_mem _ h)))))
  | some x =>
    exact mem_addStmt_of_mem _ (mem_addStmt_of_mem _ (mem_addStmt_of_mem _
      (mem_addStmt_of_mem _ (mem_addStmt_of_mem _ (mem_addStmt_of_mem _
        (mem_addStmt_of_mem _ h))))))

/-- The reification phase preserves distinctness of statements. -/
theorem reifyPhase_nodup (st : GenState) (t : Triple) (a : Option String)
    (sUri pUri oUri : String) (h : st.graph.Nodup) :
    (reifyPhase st t a sUri pUri oUri).graph.Nodup := by
  unfold reifyPhase
  dsimp only
  cases a with
  | none =>
    exact nodup_addStmt (nodup_addStmt (nodup_addStmt (nodup_addStmt
      (nodup_addStmt (nodup_addStmt h _) _) _) _) _) _
  | some x =>
    exact nodup_addStmt (nodup_addStmt (nodup_addStmt (nodup_addStmt
      (nodup_addStmt (nodup_addStmt (nodup_addStmt h _) _) _) _) _) _) _

/-- The reification phase adds the typing, confidence and extraction-time
statements of this triple. -/
theorem reifyPhase_produces (st : GenState) (t : Triple) (a : Option String)
    (sUri pUri oUri : String) :
    (tripleUriOf (tripleGetId t), rdfType, RdfObj.uri (NS ++ "NewsTriple")) ∈
      (reifyPhase st t a sUri pUri oUri).graph ∧
    (tripleUriOf (tripleGetId t), NS ++ "hasConfidence",
      RdfObj.litDec t.confidence) ∈ (reifyPhase st t a sUri pUri oUri).graph ∧
    (tripleUriOf (tripleGetId t), NS ++ "extractedAt",
      RdfObj.litDt t.extraction_timestamp) ∈
      (reifyPhase st t a sUri pUri oUri).graph := by
  unfold reifyPhase
  dsimp only
  cases a with
  | none =>
    refine ⟨?_, ?_, ?_⟩
    · exact mem_addStmt_of_mem _ (mem_addStmt_of_mem _ (mem_addStmt_of_mem _
        (mem_addStmt_of_mem _ (mem_addStmt_of_mem _ (self_mem_addStmt _ _)))))
    · exact mem_addStmt_of_mem _ (self_mem_addStmt _ _)
    · exact self_mem_addStmt _ _
  | some x =>
    refine ⟨?_, ?_, ?_⟩
    · exact mem_addStmt_of_mem _ (mem_addStmt_of_mem _ (mem_addStmt_of_mem _
        (mem_addStmt_of_mem _ (mem_addStmt_of_mem _ (mem_addStmt_of_mem _
          (self_mem_addStmt _ _))))))
    · exact mem_addStmt_of_mem _ (mem_addStmt_of_mem _ (self_mem_addStmt _ _))
    · exact self_mem_addStmt _ _

/-- Shape enumeration for the reification phase. -/
theorem mem_reifyPhase_graph {st : GenState} {t : Triple} {a : Option String}
    {sUri pUri oUri : String} {s : RdfStmt}
    (h : s ∈ (reifyPhase st t a sUri pUri oUri).graph) :
    s ∈ st.graph ∨
    s = (tripleUriOf (tripleGetId t), rdfType, RdfObj.uri (NS ++ "NewsTriple")) ∨
    s = (tripleUriOf (tripleGetId t), rdfSubject, RdfObj.uri sUri) ∨
    s = (tripleUriOf (tripleGetId t), rdfPredicate, RdfObj.uri pUri) ∨
    s = (tripleUriOf (tripleGetId t), rdfObject, RdfObj.uri oUri) ∨
    s = (tripleUriOf (tripleGetId t), NS ++ "hasConfidence",
      RdfObj.litDec t.confidence) ∨
    (∃ x, s = (tripleUriOf (tripleGetId t), NS ++ "extractedFrom", RdfObj.uri x)) ∨
    s = (tripleUriOf (tripleGetId t), NS ++ "extractedAt",
      RdfObj.litDt t.extraction_timestamp) := by
  unfold reifyPhase at h
  dsimp only at h
  cases a with
  | none =>
    rcases mem_addStmt.mp h with h1 | rfl
    rcases mem_addStmt.mp h1 with h1 | rfl
    rcases mem_addStmt.mp h1 with h1 | rfl
    rcases mem_addStmt.mp h1 with h1 | rfl
    rcases mem_addStmt.mp h1 with h1 | rfl
    rcases mem_addStmt.mp h1 with h1 | rfl
    · exact Or.inl h1
    · exact Or.inr (Or.inl rfl)
    · exact Or.inr (Or.inr (Or.inl rfl))
    · exact Or.inr (Or.inr (Or.inr (Or.inl rfl)))
    · exact Or.inr (Or.inr (Or.inr (Or.inr (Or.inl rfl))))
    · exact Or.inr (Or.inr (Or.inr (Or.inr (Or.inr (Or.inl rfl)))))
    · exact Or.inr (Or.inr (Or.inr (Or.inr (Or.inr (Or.inr (Or.inr rfl))))))
  | some x =>
    rcases mem_addStmt.mp h with h1 | rfl
    rcases mem_addStmt.mp h1 with h1 | rfl
    rcases mem_addStmt.mp h1 with h1 | rfl
    rcases mem_addStmt.mp h1 with h1 | rfl
    rcases mem_addStmt.mp h1 with h1 | rfl
    rcases mem_addStmt.mp h1 with h1 | rfl
    rcases mem_addStmt.mp h1 with h1 | rfl
    · exact Or.inl h1
    · exact Or.inr (Or.inl rfl)
    · exact Or.inr (Or.inr (Or.inl rfl))
    · exact Or.inr (Or.inr (Or.inr (Or.inl rfl)))
    · exact Or.inr (Or.inr (Or.inr (Or.inr (Or.inl rfl))))
    · exact Or.inr (Or.inr (Or.inr (Or.inr (Or.inr (Or.inl rfl)))))
    · exact Or.inr (Or.inr (Or.inr (Or.inr (Or.inr (Or.inr (Or.inl ⟨x, rfl⟩))))))
    · exact Or.inr (Or.inr (Or.inr (Or.inr (Or.inr (Or.inr (Or.inr rfl))))))

/-- `add_triple` preserves distinctness of graph statements. -/
theorem addTriple_nodup (st : GenState) (t : Triple) (a : Option String)
    (h : st.graph.Nodup) : (addTriple st t a).2.graph.Nodup := by
  unfold addTriple
  dsimp only
  split
  · exact addTriplePrep_nodup st t h
  · exact reifyPhase_nodup _ _ _ _ _ _ (addTriplePrep_nodup st t h)

/-- On a fresh dedup key, `add_triple` reifies the triple. -/
theorem addTriple_produces (st : GenState) (t : Triple) (a : Option String)
    (h : tripleGetId t ∉ st.tripleCache) :
    (tripleUriOf (tripleGetId t), rdfType, RdfObj.uri (NS ++ "NewsTriple")) ∈
      (addTriple st t a).2.graph ∧
    (tripleUriOf (tripleGetId t), NS ++ "hasConfidence",
      RdfObj.litDec t.confidence) ∈ (addTriple st t a).2.graph ∧
    (tripleUriOf (tripleGetId t), NS ++ "extractedAt",
      RdfObj.litDt t.extraction_timestamp) ∈ (addTriple st t a).2.graph := by
  unfold addTriple
  dsimp only
  split
  · next hmem =>
    rw [(addTriplePrep_fields st t).1] at hmem
    exact absurd hmem h
  · exact reifyPhase_produces _ _ _ _ _ _

/-- Master shape enumeration for one `add_triple` call. -/
theorem mem_addTriple_graph {st : GenState} {t : Triple} {a : Option String}
    {s : RdfStmt}
    (hinv : ∀ k u, dictGet st.predicateUris k = some u → ∃ x, u = NS ++ "rel_" ++ x)
    (h : s ∈ (addTriple st t a).2.graph) :
    s ∈ st.graph ∨
    (s.2.1 = rdfType ∧
      ((∃ ty, s.2.2 = RdfObj.uri (typeClassMap ty)) ∨ s.2.2 = RdfObj.uri rdfProperty)) ∨
    s.2.1 = NS ++ "hasLabel" ∨ s.2.1 = NS ++ "hasAlias" ∨ s.2.1 = rdfsLabel ∨
    (∃ x, s.2.1 = NS ++ "rel_" ++ x) ∨
    s = (tripleUriOf (tripleGetId t), rdfType, RdfObj.uri (NS ++ "NewsTriple")) ∨
    (s.1 = tripleUriOf (tripleGetId t) ∧
      (s.2.1 = rdfSubject ∨ s.2.1 = rdfPredicate ∨ s.2.1 = rdfObject ∨
       s.2.1 = NS ++ "extractedFrom")) ∨
    s = (tripleUriOf (tripleGetId t), NS ++ "hasConfidence",
      RdfObj.litDec t.confidence) ∨
    s = (tripleUriOf (tripleGetId t), NS ++ "extractedAt",
      RdfObj.litDt t.extraction_timestamp) := by
  have hprep : s ∈ (addTriplePrep st t).2.2.2.graph →
      s ∈ st.graph ∨
      (s.2.1 = rdfType ∧
        ((∃ ty, s.2.2 = RdfObj.uri (typeClassMap ty)) ∨ s.2.2 = RdfObj.uri rdfProperty)) ∨
      s.2.1 = NS ++ "hasLabel" ∨ s.2.1 = NS ++ "hasAlias" ∨ s.2.1 = rdfsLabel ∨
      (∃ x, s.2.1 = NS ++ "rel_" ++ x) := by
    intro hm
    rcases mem_addTriplePrep_graph hm with h1 | h1 | h1 | h1 | h1 | h1
    · exact Or.inl h1
    · exact Or.inr (Or.inl h1)
    · exact Or.inr (Or.inr (Or.inl h1))
    · exact Or.inr (Or.inr (Or.inr (Or.inl h1)))
    · exact Or.inr (Or.inr (Or.inr (Or.inr (Or.inl h1))))
    · obtain ⟨x, hx⟩ := addTriplePrep_rel t hinv
      exact Or.inr (Or.inr (Or.inr (Or.inr (Or.inr ⟨x, h1.trans hx⟩))))
  unfold addTriple at h
  dsimp only at h
  split at h
  · rcases hprep h with h1 | h1 | h1 | h1 | h1 | h1
    · exact Or.inl h1
    · exact Or.inr (Or.inl h1)
    · exact Or.inr (Or.inr (Or.inl h1))
    · exact Or.inr (Or.inr (Or.inr (Or.inl h1)))
    · exact Or.inr (Or.inr (Or.inr (Or.inr (Or.inl h1))))
    · exact Or.inr (Or.inr (Or.inr (Or.inr (Or.inr (Or.inl h1)))))
  · rcases mem_reifyPhase_graph h with h1 | h1 | h1 | h1 | h1 | h1 | h1 | h1
    · rcases hprep h1 with h2 | h2 | h2 | h2 | h2 | h2
      · exact Or.inl h2
      · exact Or.inr (Or.inl h2)
      · exact Or.inr (Or.inr (Or.inl h2))
      · exact Or.inr (Or.inr (Or.inr (Or.inl h2)))
      · exact Or.inr (Or.inr (Or.inr (Or.inr (Or.inl h2))))
      · exact Or.inr (Or.inr (Or.inr (Or.inr (Or.inr (Or.inl h2)))))
    · exact Or.inr (Or.inr (Or.inr (Or.inr (Or.inr (Or.inr (Or.inl h1))))))
    · rw [h1]
      exact Or.inr (Or.inr (Or.inr (Or.inr (Or.inr (Or.inr (Or.inr (Or.inl
        ⟨rfl, Or.inl rfl⟩)))))))
    · rw [h1]
      exact Or.inr (Or.inr (Or.inr (Or.inr (Or.inr (Or.inr (Or.inr (Or.inl
        ⟨rfl, Or.inr (Or.inl rfl)⟩)))))))
    · rw [h1]
      exact Or.inr (Or.inr (Or.inr (Or.inr (Or.inr (Or.inr (Or.inr (Or.inl
        ⟨rfl, Or.inr (Or.inr (Or.inl rfl))⟩)))))))
    · exact Or.inr (Or.inr (Or.inr (Or.inr (Or.inr (Or.inr (Or.inr (Or.inr
        (Or.inl h1))))))))
    · obtain ⟨x, hx⟩ := h1
      rw [hx]
      exact Or.inr (Or.inr (Or.inr (Or.inr (Or.inr (Or.inr (Or.inr (Or.inl
        ⟨rfl, Or.inr (Or.inr (Or.inr rfl))⟩)))))))
    · exact Or.inr (Or.inr (Or.inr (Or.inr (Or.inr (Or.inr (Or.inr (Or.inr
        (Or.inr h1))))))))

/-- State facts after one `add_triple` call: loader and catalog maps are
unchanged, both entity URIs and the predicate id are cached, the direct
relation is in the graph, and the dedup key is registered. -/
theorem addTriple_state_facts (st : GenState) (t : Triple) (a : Option String) :
    (addTriple st t a).2.resolver.loader = st.resolver.loader ∧
    (addTriple st t a).2.normalizer.aliasToId = st.normalizer.aliasToId ∧
    (addTriple st t a).2.normalizer.predicates = st.normalizer.predicates ∧
    toUri (resolve st.resolver t.subject t.subject_type).1 NS ∈
      (addTriple st t a).2.entityCache ∧
    toUri (resolve (resolve st.resolver t.subject t.subject_type).2
      t.object t.object_type).1 NS ∈ (addTriple st t a).2.entityCache ∧
    dictGet (addTriple st t a).2.predicateUris
      ((normalize st.normalizer t.predicate).1.1) = some (addTriplePrep st t).2.1 ∧
    (toUri (resolve st.resolver t.subject t.subject_type).1 NS,
      (addTriplePrep st t).2.1,
      RdfObj.uri (toUri (resolve (resolve st.resolver t.subject t.subject_type).2
        t.object t.object_type).1 NS)) ∈ (addTriple st t a).2.graph ∧
    tripleGetId t ∈ (addTriple st t a).2.tripleCache := by
  have hm := addTriplePrep_rel_mem st t
  rw [(addTriplePrep_uris st t).1, (addTriplePrep_uris st t).2] at hm
  unfold addTriple
  dsimp only
  split
  · next hmem =>
    exact ⟨(addTriplePrep_fields st t).2.1, (addTriplePrep_fields st t).2.2.1,
      (addTriplePrep_fields st t).2.2.2, (addTriplePrep_cache_post st t).1,
      (addTriplePrep_cache_post st t).2, addTriplePrep_pu_post st t, hm, hmem⟩
  · refine ⟨?_, ?_, ?_, ?_, ?_, ?_, ?_, ?_⟩
    · rw [(reifyPhase_fields _ _ _ _ _ _).1]
      exact (addTriplePrep_fields st t).2.1
    · rw [(reifyPhase_fields _ _ _ _ _ _).2.1]
      exact (addTriplePrep_fields st t).2.2.1
    · rw [(reifyPhase_fields _ _ _ _ _ _).2.1]
      exact (addTriplePrep_fields st t).2.2.2
    · rw [(reifyPhase_fields _ _ _ _ _ _).2.2.1]
      exact (addTriplePrep_cache_post st t).1
    · rw [(reifyPhase_fields _ _ _ _ _ _).2.2.1]
      exact (addTriplePrep_cache_post st t).2
    · rw [(reifyPhase_fields _ _ _ _ _ _).2.2.2.1]
      exact addTriplePrep_pu_post st t
    · exact reifyPhase_graph_mono _ _ _ _ _ hm
    · rw [(reifyPhase_fields _ _ _ _ _ _).2.2.2.2]
      simp

/-- Repeating `add_triple` with byte-identical subject, predicate and
object text and the same type hints returns the same reified-triple URI
and leaves the graph and every cache unchanged; the loader and catalog
maps remain shared. -/
theorem addTriple_again (st : GenState) (t tb : Triple) (a ab : Option String)
    (h1 : tb.subject = t.subject) (h2 : tb.subject_type = t.subject_type)
    (h3 : tb.predicate = t.predicate) (h4 : tb.object = t.object)
    (h5 : tb.object_type = t.object_type) :
    (addTriple (addTriple st t a).2 tb ab).1 = (addTriple st t a).1 ∧
    (addTriple (addTriple st t a).2 tb ab).2.graph = (addTriple st t a).2.graph ∧
    (addTriple (addTriple st t a).2 tb ab).2.entityCache =
      (addTriple st t a).2.entityCache ∧
    (addTriple (addTriple st t a).2 tb ab).2.tripleCache =
      (addTriple st t a).2.tripleCache ∧
    (addTriple (addTriple st t a).2 tb ab).2.predicateUris =
      (addTriple st t a).2.predicateUris ∧
    (addTriple (addTriple st t a).2 tb ab).2.resolver.loader =
      (addTriple st t a).2.resolver.loader ∧
    (addTriple (addTriple st t a).2 tb ab).2.normalizer.aliasToId =
      (addTriple st t a).2.normalizer.aliasToId ∧
    (addTriple (addTriple st t a).2 tb ab).2.normalizer.predicates =
      (addTriple st t a).2.normalizer.predicates := by
  obtain ⟨hl, ha1, hp1, hcs, hco, hpu, hrel, htid⟩ := addTriple_state_facts st t a
  have htidb : tripleGetId tb = tripleGetId t := by
    unfold tripleGetId
    rw [h1, h3, h4]
  have hrs : (resolve (addTriple st t a).2.resolver tb.subject tb.subject_type).1 =
      (resolve st.resolver t.subject t.subject_type).1 := by
    rw [h1, h2]
    exact resolve_fst_congr _ _ hl _ _
  have hload2 : (resolve (addTriple st t a).2.resolver tb.subject
      tb.subject_type).2.loader =
      (resolve st.resolver t.subject t.subject_type).2.loader := by
    rw [resolve_loader, resolve_loader]
    exact hl
  have hro : (resolve (resolve (addTriple st t a).2.resolver tb.subject
      tb.subject_type).2 tb.object tb.object_type).1 =
      (resolve (resolve st.resolver t.subject t.subject_type).2
        t.object t.object_type).1 := by
    rw [h4, h5]
    exact resolve_fst_congr _ _ hload2 _ _
  have hnorm : (normalize (addTriple st t a).2.normalizer tb.predicate).1 =
      (normalize st.normalizer t.predicate).1 := by
    rw [h3]
    exact normalize_fst_congr _ _ ha1 hp1 _
  have hsat := addTriplePrep_saturated (addTriple st t a).2 tb (addTriplePrep st t).2.1
    (by rw [hrs]; exact hcs)
    (by rw [hro]; exact hco)
    (by rw [show (normalize (addTriple st t a).2.normalizer tb.predicate).1.1 =
        (normalize st.normalizer t.predicate).1.1 from congrArg Prod.fst hnorm]
        exact hpu)
    (by rw [hrs, hro]; exact hrel)
  have hcall2 : ∀ S1 : GenState,
      tripleGetId tb ∈ (addTriplePrep S1 tb).2.2.2.tripleCache →
      addTriple S1 tb ab =
        (tripleUriOf (tripleGetId tb), (addTriplePrep S1 tb).2.2.2) := by
    intro S1 hc
    unfold addTriple
    dsimp only
    rw [if_pos hc]
  rw [hcall2 (addTriple st t a).2
    (by rw [(addTriplePrep_fields _ _).1, htidb]; exact htid)]
  refine ⟨?_, ?_, ?_, ?_, ?_, ?_, ?_, ?_⟩
  · show tripleUriOf (tripleGetId tb) = (addTriple st t a).1
    rw [htidb]
    exact (addTriple_fst st t a).symm
  · exact hsat.2.1
  · exact hsat.2.2.1
  · show (addTriplePrep (addTriple st t a).2 tb).2.2.2.tripleCache =
      (addTriple st t a).2.tripleCache
    exact (addTriplePrep_fields (addTriple st t a).2 tb).1
  · exact hsat.2.2.2
  · show (addTriplePrep (addTriple st t a).2 tb).2.2.2.resolver.loader =
      (addTriple st t a).2.resolver.loader
    exact (addTriplePrep_fields (addTriple st t a).2 tb).2.1
  · show (addTriplePrep (addTriple st t a).2 tb).2.2.2.normalizer.aliasToId =
      (addTriple st t a).2.normalizer.aliasToId
    exact (addTriplePrep_fields (addTriple st t a).2 tb).2.2.1
  · show (addTriplePrep (addTriple st t a).2 tb).2.2.2.normalizer.predicates =
      (addTriple st t a).2.normalizer.predicates
    exact (addTriplePrep_fields (addTriple st t a).2 tb).2.2.2

/-- Helper: a distinct list with a unique member satisfying `p` has
`countP p` equal to one. -/
theorem countP_eq_one_of_unique {α : Type} [DecidableEq α] {l : List α}
    {p : α → Bool} {a : α} (hnd : l.Nodup) (ha : a ∈ l) (hpa : p a = true)
    (hu : ∀ x ∈ l, p x = true → x = a) : l.countP p = 1 := by
  rw [List.countP_eq_length_filter]
  have hf : l.filter p = [a] := by
    have hnd2 := hnd.filter p
    have hmem : a ∈ l.filter p := List.mem_filter.mpr ⟨ha, hpa⟩
    have hall : ∀ x ∈ l.filter p, x = a := fun x hx =>
      hu x (List.mem_filter.mp hx).1 (List.mem_filter.mp hx).2
    cases hlf : l.filter p with
    | nil =>
      rw [hlf] at hmem
      cases hmem
    | cons b rest =>
      rw [hlf] at hall hnd2
      have hb : b = a := hall b (by simp)
      cases rest with
      | nil => rw [hb]
      | cons c rest2 =>
        have hc : c = a := hall c (by simp)
        rw [hb, hc] at hnd2
        simp at hnd2
  rw [hf]
  rfl

/-- A fresh generator has an empty predicate-URI cache, so the `rel_`
convention holds vacuously. -/
theorem init_hinv (r : ResolverState) (n : NormalizerState) :
    ∀ k u, dictGet (initGenState r n).predicateUris k = some u →
      ∃ x, u = NS ++ "rel_" ++ x := by
  intro k u h
  exact absurd h (by simp [initGenState, dictGet])

/-- From a fresh generator, the only `NewsTriple`-typed statement that one
`add_triple` call can leave in the graph is the reification of its own
dedup key. -/
theorem addTriple_init_type_unique {r : ResolverState} {n : NormalizerState}
    {t : Triple} {a : Option String} {x : RdfStmt}
    (hx : x ∈ (addTriple (initGenState r n) t a).2.graph)
    (hpred : x.2.1 = rdfType) (hobj : x.2.2 = RdfObj.uri (NS ++ "NewsTriple")) :
    x = (tripleUriOf (tripleGetId t), rdfType, RdfObj.uri (NS ++ "NewsTriple")) := by
  rcases mem_addTriple_graph (init_hinv r n) hx with
    h | h | h | h | h | h | h | h | h | h
  · exact absurd h (by simp [initGenState])
  · rcases h.2 with ⟨ty, hty⟩ | hprop
    · exact absurd (RdfObj.uri.inj (hty.symm.trans hobj)) (typeClassMap_ne_newsTriple ty)
    · exact absurd (RdfObj.uri.inj (hprop.symm.trans hobj)) (by decide)
  · exact absurd (h.symm.trans hpred) (by decide)
  · exact absurd (h.symm.trans hpred) (by decide)
  · exact absurd (h.symm.trans hpred) (by decide)
  · obtain ⟨y, hy⟩ := h
    exact absurd (hy.symm.trans hpred) (relUri_ne y rdfType 7 (by decide) (by decide))
  · exact h
  · rcases h.2 with hc | hc | hc | hc <;>
      exact absurd (hc.symm.trans hpred) (by decide)
  · exact absurd (show NS ++ "hasConfidence" = rdfType from
      (congrArg (fun z => z.2.1) h).symm.trans hpred) (by decide)
  · exact absurd (show NS ++ "extractedAt" = rdfType from
      (congrArg (fun z => z.2.1) h).symm.trans hpred) (by decide)

/-- From a fresh generator, the only confidence statement attached to this
triple URI carries the confidence of the first ingested triple. -/
theorem addTriple_init_conf_unique {r : ResolverState} {n : NormalizerState}
    {t : Triple} {a : Option String} {u : String} {q : ℚ}
    (hx : (u, NS ++ "hasConfidence", RdfObj.litDec q) ∈
      (addTriple (initGenState r n) t a).2.graph) : q = t.confidence := by
  rcases mem_addTriple_graph (init_hinv r n) hx with
    h | h | h | h | h | h | h | h | h | h
  · exact absurd h (by simp [initGenState])
  · exact absurd (show NS ++ "hasConfidence" = rdfType from h.1) (by decide)
  · exact absurd (show NS ++ "hasConfidence" = NS ++ "hasLabel" from h) (by decide)
  · exact absurd (show NS ++ "hasConfidence" = NS ++ "hasAlias" from h) (by decide)
  · exact absurd (show NS ++ "hasConfidence" = rdfsLabel from h) (by decide)
  · obtain ⟨y, hy⟩ := h
    exact absurd (show NS ++ "rel_" ++ y = NS ++ "hasConfidence" from hy.symm)
      (relUri_ne y (NS ++ "hasConfidence") 26 (by decide) (by decide))
  · exact absurd (show NS ++ "hasConfidence" = rdfType from
      congrArg (fun z => z.2.1) h) (by decide)
  · rcases h.2 with hc | hc | hc | hc
    · exact absurd (show NS ++ "hasConfidence" = rdfSubject from hc) (by decide)
    · exact absurd (show NS ++ "hasConfidence" = rdfPredicate from hc) (by decide)
    · exact absurd (show NS ++ "hasConfidence" = rdfObject from hc) (by decide)
    · exact absurd (show NS ++ "hasConfidence" = NS ++ "extractedFrom" from hc)
        (by decide)
  · exact RdfObj.litDec.inj (congrArg (fun z => z.2.2) h)
  · exact absurd (show NS ++ "hasConfidence" = NS ++ "extractedAt" from
      congrArg (fun z => z.2.1) h) (by decide)

/-- From a fresh generator, the only extraction-time statement attached to
this triple URI carries the timestamp of the first ingested triple. -/
theorem addTriple_init_time_unique {r : ResolverState} {n : NormalizerState}
    {t : Triple} {a : Option String} {u : String} {ts : String}
    (hx : (u, NS ++ "extractedAt", RdfObj.litDt ts) ∈
      (addTriple (initGenState r n) t a).2.graph) : ts = t.extraction_timestamp := by
  rcases mem_addTriple_graph (init_hinv r n) hx with
    h | h | h | h | h | h | h | h | h | h
  · exact absurd h (by simp [initGenState])
  · exact absurd (show NS ++ "extractedAt" = rdfType from h.1) (by decide)
  · exact absurd (show NS ++ "extractedAt" = NS ++ "hasLabel" from h) (by decide)
  · exact absurd (show NS ++ "extractedAt" = NS ++ "hasAlias" from h) (by decide)
  · exact absurd (show NS ++ "extractedAt" = rdfsLabel from h) (by decide)
  · obtain ⟨y, hy⟩ := h
    exact absurd (show NS ++ "rel_" ++ y = NS ++ "extractedAt" from hy.symm)
      (relUri_ne y (NS ++ "extractedAt") 26 (by decide) (by decide))
  · exact absurd (show NS ++ "extractedAt" = rdfType from
      congrArg (fun z => z.2.1) h) (by decide)
  · rcases h.2 with hc | hc | hc | hc
    · exact absurd (show NS ++ "extractedAt" = rdfSubject from hc) (by decide)
    · exact absurd (show NS ++ "extractedAt" = rdfPredicate from hc) (by decide)
    · exact absurd (show NS ++ "extractedAt" = rdfObject from hc) (by decide)
    · exact absurd (show NS ++ "extractedAt" = NS ++ "extractedFrom" from hc)
        (by decide)
  · exact absurd (show NS ++ "extractedAt" = NS ++ "hasConfidence" from
      congrArg (fun z => z.2.1) h) (by decide)
  · exact RdfObj.litDt.inj (congrArg (fun z => z.2.2) h)

/-- C1: from a fresh assembler, calling `add_triple` three times with
byte-identical subject, predicate and object texts and type hints yields
the same reified-triple URI each time and leaves the graph unchanged by
the repeated calls; the final graph holds exactly one `NewsTriple` node,
whose confidence and extraction timestamp are those of the first
ingestion (first-write-wins). -/
theorem C1_edge_dedup (r : ResolverState) (n : NormalizerState)
    (t1 t2 t3 : Triple) (a1 a2 a3 : Option String)
    (h2s : t2.subject = t1.subject) (h2st : t2.subject_type = t1.subject_type)
    (h2p : t2.predicate = t1.predicate) (h2o : t2.object = t1.object)
    (h2ot : t2.object_type = t1.object_type)
    (h3s : t3.subject = t2.subject) (h3st : t3.subject_type = t2.subject_type)
    (h3p : t3.predicate = t2.predicate) (h3o : t3.object = t2.object)
    (h3ot : t3.object_type = t2.object_type) :
    (addTriple (addTriple (initGenState r n) t1 a1).2 t2 a2).1 =
      (addTriple (initGenState r n) t1 a1).1 ∧
    (addTriple (addTriple (addTriple (initGenState r n) t1 a1).2 t2 a2).2 t3 a3).1 =
      (addTriple (initGenState r n) t1 a1).1 ∧
    (addTriple (addTriple (initGenState r n) t1 a1).2 t2 a2).2.graph =
      (addTriple (initGenState r n) t1 a1).2.graph ∧
    (addTriple (addTriple (addTriple (initGenState r n) t1 a1).2 t2 a2).2
      t3 a3).2.graph = (addTriple (initGenState r n) t1 a1).2.graph ∧
    (addTriple (addTriple (addTriple (initGenState r n) t1 a1).2 t2 a2).2
      t3 a3).2.graph.countP
      (fun s => s.2.1 == rdfType && s.2.2 == RdfObj.uri (NS ++ "NewsTriple")) = 1 ∧
    (tripleUriOf (tripleGetId t1), NS ++ "hasConfidence",
      RdfObj.litDec t1.confidence) ∈
      (addTriple (addTriple (addTriple (initGenState r n) t1 a1).2 t2 a2).2
        t3 a3).2.graph ∧
    (∀ q, (tripleUriOf (tripleGetId t1), NS ++ "hasConfidence", RdfObj.litDec q) ∈
      (addTriple (addTriple (addTriple (initGenState r n) t1 a1).2 t2 a2).2
        t3 a3).2.graph → q = t1.confidence) ∧
    (tripleUriOf (tripleGetId t1), NS ++ "extractedAt",
      RdfObj.litDt t1.extraction_timestamp) ∈
      (addTriple (addTriple (addTriple (initGenState r n) t1 a1).2 t2 a2).2
        t3 a3).2.graph ∧
    (∀ ts, (tripleUriOf (tripleGetId t1), NS ++ "extractedAt", RdfObj.litDt ts) ∈
      (addTriple (addTriple (addTriple (initGenState r n) t1 a1).2 t2 a2).2
        t3 a3).2.graph → ts = t1.extraction_timestamp) := by
  have A2 := addTriple_again (initGenState r n) t1 t2 a1 a2 h2s h2st h2p h2o h2ot
  have A3 := addTriple_again (addTriple (initGenState r n) t1 a1).2 t2 t3 a2 a3
    h3s h3st h3p h3o h3ot
  have hG3 : (addTriple (addTriple (addTriple (initGenState r n) t1 a1).2 t2 a2).2
      t3 a3).2.graph = (addTriple (initGenState r n) t1 a1).2.graph :=
    A3.2.1.trans A2.2.1
  have htid : tripleGetId t1 ∉ (initGenState r n).tripleCache := by
    simp [initGenState]
  have hprod := addTriple_produces (initGenState r n) t1 a1 htid
  have hnd : (addTriple (initGenState r n) t1 a1).2.graph.Nodup :=
    addTriple_nodup _ _ _ (by simp [initGenState])
  refine ⟨A2.1, A3.1.trans A2.1, A2.2.1, hG3, ?_, ?_, ?_, ?_, ?_⟩
  · rw [hG3]
    refine countP_eq_one_of_unique hnd hprod.1 (by simp) ?_
    intro x hx hpx
    rw [Bool.and_eq_true, beq_iff_eq, beq_iff_eq] at hpx
    exact addTriple_init_type_unique hx hpx.1 hpx.2
  · rw [hG3]
    exact hprod.2.1
  · intro q hq
    rw [hG3] at hq
    exact addTriple_init_conf_unique hq
  · rw [hG3]
    exact hprod.2.2
  · intro ts hts
    rw [hG3] at hts
    exact addTriple_init_time_unique hts

set_option maxRecDepth 65536 in
/-- C1 witness: three ingestions of `AB met CD` (with differing confidences
and timestamps in the repeats) into a fresh assembler return one URI,
leave the graph of the first call unchanged, keep exactly one reified
node, and retain the first call's confidence and timestamp. -/
theorem C1_witness :
    (addTriple (addTriple c1Gen c1T1 none).2 c1T2 none).1 =
      (addTriple c1Gen c1T1 none).1 ∧
    (addTriple (addTriple (addTriple c1Gen c1T1 none).2 c1T2 none).2 c1T3 none).1 =
      (addTriple c1Gen c1T1 none).1 ∧
    (addTriple (addTriple (addTriple c1Gen c1T1 none).2 c1T2 none).2
      c1T3 none).2.graph = (addTriple c1Gen c1T1 none).2.graph ∧
    (addTriple (addTriple (addTriple c1Gen c1T1 none).2 c1T2 none).2
      c1T3 none).2.graph.countP
      (fun s => s.2.1 == rdfType && s.2.2 == RdfObj.uri (NS ++ "NewsTriple")) = 1 ∧
    (tripleUriOf (tripleGetId c1T1), NS ++ "hasConfidence",
      RdfObj.litDec c1T1.confidence) ∈
      (addTriple (addTriple (addTriple c1Gen c1T1 none).2 c1T2 none).2
        c1T3 none).2.graph := by
  have h := C1_edge_dedup c1Resolver (loadMaster []) c1T1 c1T2 c1T3 none none none
    rfl rfl rfl rfl rfl rfl rfl rfl rfl rfl
  exact ⟨h.1, h.2.1, h.2.2.2.1, h.2.2.2.2.1, h.2.2.2.2.2.1⟩

set_option maxRecDepth 65536 in
/-- C2 counterexample: the subject texts `AB` and `AB2` resolve to the same
entity URI, and the predicate and object texts coincide, so both raw
triples resolve to the same three URIs — yet their dedup keys differ
(the key hashes the raw texts, not the resolved URIs), and ingesting both
leaves two reified `NewsTriple` nodes in the assembled graph. -/
theorem C2_counterexample :
    toUri (resolve c1Resolver "AB" "person").1 NS =
      toUri (resolve c1Resolver "AB2" "person").1 NS ∧
    c2T.predicate = c1T1.predicate ∧ c2T.object = c1T1.object ∧
    tripleGetId c2T ≠ tripleGetId c1T1 ∧
    (addTriple (addTriple c1Gen c1T1 none).2 c2T none).2.graph.countP
      (fun s => s.2.1 == rdfType && s.2.2 == RdfObj.uri (NS ++ "NewsTriple")) = 2 := by
  decide

theorem countP_le_one_of_nodup (l : List RdfStmt) (hnd : l.Nodup) (x : RdfStmt) :
    l.countP (fun s => decide (s = x)) ≤ 1 := by
  induction l with
  | nil => simp
  | cons a l ih =>
    rw [List.nodup_cons] at hnd
    by_cases hax : a = x
    · rw [List.countP_cons_of_pos _ _ (by simp [hax])]
      have hz : l.countP (fun s => decide (s = x)) = 0 := by
        apply List.countP_eq_zero.mpr
        intro s hs
        simp only [decide_eq_true_eq]
        intro h
        apply hnd.1
        rw [hax, ← h]
        exact hs
      rw [hz]
    · rw [List.countP_cons_of_neg _ _ (by simp [hax])]
      exact ih hnd.2

/-- C2 amended: the dedup key of a reified edge is the truncated MD5 of the
raw `(subject_text, predicate_text, object_text)` — so triples with
byte-identical raw texts share one key — and the assembled graph, which
never duplicates a statement, holds at most one reified `NewsTriple`
node per dedup key no matter how many triples are ingested. -/
theorem C2_dedup_key_raw_text (t tb : Triple)
    (hs : tb.subject = t.subject) (hp : tb.predicate = t.predicate)
    (ho : tb.object = t.object) :
    tripleGetId tb = tripleGetId t ∧
    tripleGetId t =
      (md5Hex (t.subject ++ "_" ++ t.predicate ++ "_" ++ t.object)).take 12 ∧
    (∀ st a, st.graph.Nodup →
      (addTriple st t a).2.graph.Nodup ∧
      ∀ tid, (addTriple st t a).2.graph.countP
        (fun s => decide
          (s = (tripleUriOf tid, rdfType, RdfObj.uri (NS ++ "NewsTriple")))) ≤ 1) := by
  refine ⟨?_, rfl, fun st a hnd => ⟨addTriple_nodup st t a hnd, fun tid => ?_⟩⟩
  · unfold tripleGetId
    rw [hs, hp, ho]
  · exact countP_le_one_of_nodup _ (addTriple_nodup st t a hnd) _

/-- C2 witness: the two ingestions with identical raw texts share a dedup
key, and after ingesting `c1T1` into the fresh assembler every reified
node is unique. -/
theorem C2_witness :
    tripleGetId c1T2 = tripleGetId c1T1 ∧
    (addTriple c1Gen c1T1 none).2.graph.Nodup ∧
    (addTriple c1Gen c1T1 none).2.graph.countP
      (fun s => decide
        (s = (tripleUriOf (tripleGetId c1T1), rdfType,
          RdfObj.uri (NS ++ "NewsTriple")))) ≤ 1 := by
  have h := C2_dedup_key_raw_text c1T1 c1T2 rfl rfl rfl
  have h2 := h.2.2 c1Gen none (by decide)
  exact ⟨h.1, h2.1, h2.2 (tripleGetId c1T1)⟩

theorem spanOverlaps_comm (p e s f : Nat) :
    spanOverlaps p e (s, f) = spanOverlaps s f (p, e) := by
  unfold spanOverlaps
  dsimp only
  by_cases h1 : p < f <;> by_cases h2 : s < e <;> simp [h1, h2]

def scanNonOverlap (st : ScanState) : Prop :=
  st.matched = st.results.map (fun r => (r.1, r.2.1)) ∧
  st.results.Pairwise (fun a b => spanOverlaps a.1 a.2.1 (b.1, b.2.1) = false)

theorem scanKeyLoop_inv (text key : List Char) (entry : DictionaryEntry)
    (fuel : Nat) :
    ∀ start st, scanNonOverlap st →
      scanNonOverlap (scanKeyLoop text key entry fuel start st) := by
  induction fuel with
  | zero => intro start st h; exact h
  | succ fuel ih =>
    intro start st h
    unfold scanKeyLoop
    split
    · exact h
    · rename_i pos hf
      dsimp only
      cases hov : st.matched.any (spanOverlaps pos (pos + key.length)) with
      | true =>
        rw [if_pos rfl]
        exact ih (pos + 1) st h
      | false =>
        rw [if_neg (by simp)]
        apply ih (pos + 1)
        constructor
        · simp [h.1]
        · rw [List.pairwise_append]
          refine ⟨h.2, List.pairwise_singleton _ _, ?_⟩
          intro a ha b hb
          rw [List.mem_singleton] at hb
          subst hb
          have hma : (a.1, a.2.1) ∈ st.matched := by
            rw [h.1]
            exact List.mem_map_of_mem _ ha
          have hfalse := (List.any_eq_false.mp hov) _ hma
          show spanOverlaps a.1 a.2.1 (pos, pos + key.length) = false
          rw [spanOverlaps_comm]
          cases hq : spanOverlaps pos (pos + key.length) (a.1, a.2.1) with
          | false => rfl
          | true => exact absurd hq hfalse

theorem scanFold_inv (loader : LoaderState) (text : String) :
    ∀ (keys : List String) (st : ScanState), scanNonOverlap st →
      scanNonOverlap (keys.foldl (scanStep loader text) st) := by
  intro keys
  induction keys with
  | nil => intro st h; exact h
  | cons k keys ih =>
    intro st h
    rw [List.foldl_cons]
    apply ih
    unfold scanStep
    split
    · exact h
    · exact scanKeyLoop_inv text.data k.data _ (text.data.length + 2) 0 st h

/-- C5: the dictionary scan tries candidate keys in descending length
order, and for every loader and input text it returns spans that are
pairwise non-overlapping under the code's overlap test
(`pos < mp_end and end_pos > mp_start`) and ordered by start position. -/
theorem C5_scan_nonoverlap_sorted (loader : LoaderState) (text : String) :
    ((dictKeys loader.textToEntity).mergeSort
      (fun a b => decide (b.length ≤ a.length))).Pairwise
      (fun a b => b.length ≤ a.length) ∧
    (findEntitiesInText loader text).Pairwise
      (fun a b => spanOverlaps a.1 a.2.1 (b.1, b.2.1) = false) ∧
    (findEntitiesInText loader text).Pairwise (fun a b => a.1 ≤ b.1) := by
  refine ⟨?_, ?_, ?_⟩
  · have hs := @List.sorted_mergeSort String
      (fun a b => decide (b.length ≤ a.length))
      (fun a b c hab hbc => by
        simp only [decide_eq_true_eq] at hab hbc ⊢
        omega)
      (fun a b => by
        simp only [Bool.or_eq_true, decide_eq_true_eq]
        omega)
      (dictKeys loader.textToEntity)
    exact hs.imp (fun h => by simp only [decide_eq_true_eq] at h; exact h)
  · have hinv := scanFold_inv loader text
      ((dictKeys loader.textToEntity).mergeSort
        (fun a b => decide (b.length ≤ a.length)))
      { results := [], matched := [] }
      ⟨rfl, List.Pairwise.nil⟩
    have hperm := List.mergeSort_perm
      (((dictKeys loader.textToEntity).mergeSort
        (fun a b => decide (b.length ≤ a.length))).foldl
        (scanStep loader text) { results := [], matched := [] }).results
      (fun a b => decide (a.1 ≤ b.1))
    show ((((dictKeys loader.textToEntity).mergeSort
      (fun a b => decide (b.length ≤ a.length))).foldl
      (scanStep loader text)
      { results := [], matched := [] }).results.mergeSort
      (fun a b => decide (a.1 ≤ b.1))).Pairwise
      (fun a b => spanOverlaps a.1 a.2.1 (b.1, b.2.1) = false)
    exact (List.Perm.pairwise_iff
      (fun hxy => (spanOverlaps_comm _ _ _ _).trans hxy) hperm).mpr hinv.2
  · have hs := @List.sorted_mergeSort (Nat × Nat × DictionaryEntry)
      (fun a b => decide (a.1 ≤ b.1))
      (fun a b c hab hbc => by
        simp only [decide_eq_true_eq] at hab hbc ⊢
        omega)
      (fun a b => by
        simp only [Bool.or_eq_true, decide_eq_true_eq]
        omega)
      ((((dictKeys loader.textToEntity).mergeSort
        (fun a b => decide (b.length ≤ a.length))).foldl
        (scanStep loader text) { results := [], matched := [] }).results)
    exact hs.imp (fun h => by simp only [decide_eq_true_eq] at h; exact h)

/-- C9 counterexample: with the chained mapping `B → C, A → B` (in that
insertion order) and the one-line corpus `newskg:hasLabel "A"@ja`, the
first run rewrites `A` to `B`, and rerunning with the same mapping on
the rewritten corpus performs one further replacement (`B` to `C`) and
changes its input — refuting idempotence. -/
theorem C9_counterexample :
    (applyNormalizationToRdf c9Mapping c9Corpus).2 = 1 ∧
    (applyNormalizationToRdf c9Mapping
      (applyNormalizationToRdf c9Mapping c9Corpus).1).2 = 1 ∧
    (applyNormalizationToRdf c9Mapping
      (applyNormalizationToRdf c9Mapping c9Corpus).1).1 ≠
      (applyNormalizationToRdf c9Mapping c9Corpus).1 := by
  decide

theorem stripPrefixChars_append (p r : List Char) :
    stripPrefixChars p (p ++ r) = some r := by
  induction p with
  | nil => rfl
  | cons a p ih => simp [stripPrefixChars, ih]

theorem stripPrefixChars_eq_append {p cs r : List Char}
    (h : stripPrefixChars p cs = some r) : cs = p ++ r := by
  induction p generalizing cs with
  | nil =>
    simp only [stripPrefixChars, Option.some.injEq] at h
    simp [h]
  | cons a p ih =>
    cases cs with
    | nil => simp [stripPrefixChars] at h
    | cons c cs =>
      by_cases hac : a = c
      · subst hac
        simp only [stripPrefixChars, if_pos rfl] at h
        simp [ih h]
      · simp [stripPrefixChars, hac] at h

theorem hasLabelLit_eq : hasLabelLit = 'n' :: "ewskg:hasLabel".data := by
  decide

theorem matchPat_nil (o : List Char) : matchPat o [] = none := by
  unfold matchPat
  rw [hasLabelLit_eq]
  rfl

theorem searchPat_nil (o : List Char) : searchPat o [] = false := by
  simp [searchPat, matchPat_nil]

theorem searchPat_cons (o : List Char) (c : Char) (cs : List Char) :
    searchPat o (c :: cs) = ((matchPat o (c :: cs)).isSome || searchPat o cs) :=
  rfl

theorem matchPat_some_shape (o cs r : List Char) (h : matchPat o cs = some r) :
    ∃ ws, (∀ c ∈ ws, pySpace c = true) ∧ ws ≠ [] ∧
      cs = (hasLabelLit ++ ws) ++
        ('"' :: (o ++ ('"' :: ('@' :: 'j' :: 'a' :: r)))) := by
  unfold matchPat at h
  cases h1 : stripPrefixChars hasLabelLit cs with
  | none => rw [h1] at h; exact absurd h (by simp)
  | some r1 =>
    rw [h1] at h
    dsimp only at h
    by_cases hw : r1.takeWhile pySpace = []
    · rw [if_pos hw] at h
      exact absurd h (by simp)
    · rw [if_neg hw] at h
      have h2 := stripPrefixChars_eq_append h
      have h3 := stripPrefixChars_eq_append h1
      refine ⟨r1.takeWhile pySpace, fun c hc => List.mem_takeWhile_imp hc, hw, ?_⟩
      rw [h3]
      calc hasLabelLit ++ r1
          = hasLabelLit ++ (r1.takeWhile pySpace ++ r1.dropWhile pySpace) := by
            rw [List.takeWhile_append_dropWhile]
        _ = hasLabelLit ++ (r1.takeWhile pySpace ++
            (('"' :: (o ++ ('"' :: "@ja".data))) ++ r)) := by rw [h2]
        _ = (hasLabelLit ++ r1.takeWhile pySpace) ++
            ('"' :: (o ++ ('"' :: ('@' :: 'j' :: 'a' :: r)))) := by
            simp [List.append_assoc]

theorem no_quote_lit_ws (ws : List Char) (hws : ∀ c ∈ ws, pySpace c = true) :
    '"' ∉ hasLabelLit ++ ws := by
  intro hmem
  rcases List.mem_append.mp hmem with h | h
  · exact absurd h (by decide)
  · exact absurd (hws _ h) (by decide)

theorem quote_split_unique : ∀ (a a2 b b2 : List Char), '"' ∉ a → '"' ∉ a2 →
    a ++ ('"' :: b) = a2 ++ ('"' :: b2) → a = a2 ∧ b = b2 := by
  intro a
  induction a with
  | nil =>
    intro a2 b b2 _ ha2 h
    cases a2 with
    | nil =>
      simp only [List.nil_append, List.cons.injEq] at h
      exact ⟨rfl, h.2⟩
    | cons c a2' =>
      rw [List.nil_append, List.cons_append] at h
      injection h with h1 _
      exact absurd (show ('"' : Char) ∈ c :: a2' from by
        rw [h1]; exact List.mem_cons_self _ _) ha2
  | cons x a' ih =>
    intro a2 b b2 ha ha2 h
    cases a2 with
    | nil =>
      rw [List.cons_append, List.nil_append] at h
      injection h with h1 _
      exact absurd (show ('"' : Char) ∈ x :: a' from by
        rw [← h1]; exact List.mem_cons_self _ _) ha
    | cons y a2' =>
      rw [List.cons_append, List.cons_append] at h
      injection h with h1 h2
      have hrec := ih a2' b b2 (fun hm => ha (List.mem_cons_of_mem _ hm))
        (fun hm => ha2 (List.mem_cons_of_mem _ hm)) h2
      exact ⟨by rw [h1, hrec.1], hrec.2⟩

theorem matchPat_none_of_no_quote (o cs : List Char) (h : '"' ∉ cs) :
    matchPat o cs = none := by
  cases hm : matchPat o cs with
  | none => rfl
  | some r =>
    obtain ⟨ws, _, _, hshape⟩ := matchPat_some_shape o cs r hm
    exact absurd (show ('"' : Char) ∈ cs from by rw [hshape]; simp) h

theorem searchPat_false_of_no_quote (o cs : List Char) (h : '"' ∉ cs) :
    searchPat o cs = false := by
  induction cs with
  | nil => exact searchPat_nil o
  | cons c cs' ih =>
    rw [searchPat_cons, matchPat_none_of_no_quote o (c :: cs') h]
    simp only [Option.isSome_none, Bool.false_or]
    exact ih (fun hm => h (List.mem_cons_of_mem _ hm))

theorem matchPat_none_split_short (o a b : List Char) (ha : '"' ∉ a)
    (hlen : a.length < 16) : matchPat o (a ++ ('"' :: b)) = none := by
  cases hm : matchPat o (a ++ ('"' :: b)) with
  | none => rfl
  | some r =>
    obtain ⟨ws, hws, hne, hshape⟩ := matchPat_some_shape o _ r hm
    have hu := quote_split_unique a (hasLabelLit ++ ws) b
      (o ++ ('"' :: ('@' :: 'j' :: 'a' :: r))) ha (no_quote_lit_ws ws hws) hshape
    have hlen2 : a.length = (hasLabelLit ++ ws).length := by rw [hu.1]
    rw [List.length_append] at hlen2
    have hwlen : 1 ≤ ws.length := by
      cases ws with
      | nil => exact absurd rfl hne
      | cons _ _ => simp
    have hll : hasLabelLit.length = 15 := by decide
    omega

theorem matchPat_none_split_noquote (o a b : List Char) (ha : '"' ∉ a)
    (hb : '"' ∉ b) : matchPat o (a ++ ('"' :: b)) = none := by
  cases hm : matchPat o (a ++ ('"' :: b)) with
  | none => rfl
  | some r =>
    obtain ⟨ws, hws, _, hshape⟩ := matchPat_some_shape o _ r hm
    have hu := quote_split_unique a (hasLabelLit ++ ws) b
      (o ++ ('"' :: ('@' :: 'j' :: 'a' :: r))) ha (no_quote_lit_ws ws hws) hshape
    exact absurd (show ('"' : Char) ∈ b from by rw [hu.2]; simp) hb

theorem matchPat_none_pre (o : List Char) (c : Char) (p b : List Char)
    (hp : '"' ∉ c :: p) :
    matchPat o ((c :: p) ++ ((hasLabelLit ++ [' ']) ++ ('"' :: b))) = none := by
  cases hm : matchPat o ((c :: p) ++ ((hasLabelLit ++ [' ']) ++ ('"' :: b))) with
  | none => rfl
  | some r =>
    obtain ⟨ws, hws, hne, hshape⟩ := matchPat_some_shape o _ r hm
    have ha2 : '"' ∉ (c :: p) ++ (hasLabelLit ++ [' ']) := by
      intro hmem
      rcases List.mem_append.mp hmem with h | h
      · exact hp h
      rcases List.mem_append.mp h with h | h
      · exact absurd h (by decide)
      · exact absurd h (by decide)
    have hshape2 : ((c :: p) ++ (hasLabelLit ++ [' '])) ++ ('"' :: b) =
        (hasLabelLit ++ ws) ++ ('"' :: (o ++ ('"' :: ('@' :: 'j' :: 'a' :: r)))) := by
      rw [List.append_assoc]
      exact hshape
    have hu := quote_split_unique ((c :: p) ++ (hasLabelLit ++ [' ']))
      (hasLabelLit ++ ws) b (o ++ ('"' :: ('@' :: 'j' :: 'a' :: r)))
      ha2 (no_quote_lit_ws ws hws) hshape2
    have h15 : hasLabelLit.length = 15 := by decide
    have hws_eq : ws = ((c :: p) ++ (hasLabelLit ++ [' '])).drop 15 := by
      rw [hu.1, ← h15, List.drop_left]
    have hlit_decomp : (c :: p) ++ (hasLabelLit ++ [' ']) =
        ((c :: p) ++ "newskg:hasLabe".data) ++ ('l' :: [' ']) := by
      rw [show hasLabelLit = "newskg:hasLabe".data ++ ['l'] from by decide]
      simp [List.append_assoc]
    rw [hlit_decomp] at hws_eq
    have hlen1 : 15 ≤ ((c :: p) ++ "newskg:hasLabe".data).length := by
      rw [List.length_append, List.length_cons]
      have h14 : "newskg:hasLabe".data.length = 14 := by decide
      omega
    rw [List.drop_append_of_le_length hlen1] at hws_eq
    have hl_mem : 'l' ∈ ws := by
      rw [hws_eq]
      simp
    exact absurd (hws _ hl_mem) (by decide)

theorem searchPat_false_noquote_b (o b : List Char) (hb : '"' ∉ b) :
    ∀ a, '"' ∉ a → searchPat o (a ++ ('"' :: b)) = false := by
  intro a
  induction a with
  | nil =>
    intro _
    rw [List.nil_append, searchPat_cons]
    have hm := matchPat_none_split_noquote o [] b (by simp) hb
    rw [List.nil_append] at hm
    rw [hm]
    simp only [Option.isSome_none, Bool.false_or]
    exact searchPat_false_of_no_quote o b hb
  | cons c a' ih =>
    intro ha
    rw [List.cons_append, searchPat_cons]
    have hm := matchPat_none_split_noquote o (c :: a') b ha hb
    rw [List.cons_append] at hm
    rw [hm]
    simp only [Option.isSome_none, Bool.false_or]
    exact ih (fun hmm => ha (List.mem_cons_of_mem _ hmm))

theorem searchPat_false_inner (o L2 js : List Char) (hL2 : '"' ∉ L2)
    (hjs : '"' ∉ js) :
    ∀ x, '"' ∉ x → x.length ≤ 15 →
      searchPat o (x ++ ('"' :: (L2 ++ ('"' :: js)))) = false := by
  intro x
  induction x with
  | nil =>
    intro _ _
    rw [List.nil_append, searchPat_cons]
    have hm := matchPat_none_split_short o [] (L2 ++ ('"' :: js)) (by simp) (by simp)
    rw [List.nil_append] at hm
    rw [hm]
    simp only [Option.isSome_none, Bool.false_or]
    exact searchPat_false_noquote_b o js hjs L2 hL2
  | cons c x' ih =>
    intro hx hlen
    rw [List.cons_append, searchPat_cons]
    have hm := matchPat_none_split_short o (c :: x') (L2 ++ ('"' :: js)) hx
      (by rw [List.length_cons]; rw [List.length_cons] at hlen; omega)
    rw [List.cons_append] at hm
    rw [hm]
    simp only [Option.isSome_none, Bool.false_or]
    exact ih (fun hmm => hx (List.mem_cons_of_mem _ hmm))
      (by rw [List.length_cons] at hlen; omega)

theorem subAllAux_id (o v : List Char) :
    ∀ fuel cs, searchPat o cs = false → subAllAux o v fuel cs = cs := by
  intro fuel
  induction fuel with
  | zero => intro cs _; rfl
  | succ fuel ih =>
    intro cs h
    cases cs with
    | nil =>
      unfold subAllAux
      rw [matchPat_nil]
    | cons c cs2 =>
      rw [searchPat_cons] at h
      have h1 : matchPat o (c :: cs2) = none := by
        cases hm : matchPat o (c :: cs2) with
        | none => rfl
        | some r => rw [hm] at h; simp at h
      have h2 : searchPat o cs2 = false := by
        rw [h1] at h
        simpa using h
      unfold subAllAux
      rw [h1]
      dsimp only
      rw [ih cs2 h2]

theorem stripPrefixChars_quote (x y : List Char) :
    ∀ (o L : List Char), '"' ∉ o → '"' ∉ L →
      stripPrefixChars (o ++ ('"' :: x)) (L ++ ('"' :: y)) =
        if o = L then stripPrefixChars x y else none := by
  intro o
  induction o with
  | nil =>
    intro L _ hL
    cases L with
    | nil => simp [stripPrefixChars]
    | cons b L2 =>
      have hb : b ≠ '"' := fun hbe => hL (by rw [hbe]; exact List.mem_cons_self _ _)
      simp [stripPrefixChars, Ne.symm hb]
  | cons a o2 ih =>
    intro L ho hL
    have ha : a ≠ '"' := fun hae => ho (by rw [hae]; exact List.mem_cons_self _ _)
    cases L with
    | nil => simp [stripPrefixChars, ha]
    | cons b L2 =>
      by_cases hab : a = b
      · subst hab
        have ho2 : '"' ∉ o2 := fun hm => ho (List.mem_cons_of_mem _ hm)
        have hL2 : '"' ∉ L2 := fun hm => hL (List.mem_cons_of_mem _ hm)
        simp [stripPrefixChars, ih L2 ho2 hL2]
      · simp [stripPrefixChars, hab]

theorem matchPat_canonTail (o L suf : List Char) (ho : '"' ∉ o) (hL : '"' ∉ L) :
    matchPat o (canonTail L suf) = if o = L then some suf else none := by
  unfold matchPat canonTail
  rw [stripPrefixChars_append]
  dsimp only
  rw [List.takeWhile_cons_of_pos (by decide), List.takeWhile_cons_of_neg (by decide)]
  rw [List.dropWhile_cons_of_pos (by decide), List.dropWhile_cons_of_neg (by decide)]
  rw [if_neg (by simp)]
  simp only [stripPrefixChars]
  rw [if_pos trivial]
  rw [stripPrefixChars_quote ['@', 'j', 'a'] (['@', 'j', 'a'] ++ suf) o L ho hL]
  rw [stripPrefixChars_append]

theorem patReplacement_canonTail (v suf : List Char) :
    patReplacement v ++ suf = canonTail v suf := by
  have h : "newskg:hasLabel ".data = hasLabelLit ++ [' '] := by decide
  rw [patReplacement, canonTail, h]
  simp [List.append_assoc]

theorem canonLine_nil (L suf : List Char) :
    canonHasLabelLine [] L suf = canonTail L suf := by
  simp [canonHasLabelLine]

theorem canonLine_cons (c : Char) (pre L suf : List Char) :
    canonHasLabelLine (c :: pre) L suf = c :: canonHasLabelLine pre L suf := by
  simp [canonHasLabelLine]

theorem canonLine_def (pre L suf : List Char) :
    canonHasLabelLine pre L suf = pre ++ canonTail L suf := rfl

theorem canonTail_split (L suf : List Char) :
    canonTail L suf =
      (hasLabelLit ++ [' ']) ++ ('"' :: (L ++ ('"' :: ("@ja".data ++ suf)))) := by
  rw [canonTail]
  simp [List.append_assoc]

theorem matchPat_none_canonLine_pre (o : List Char) (c : Char)
    (pre L suf : List Char) (hpre : '"' ∉ c :: pre) :
    matchPat o (c :: canonHasLabelLine pre L suf) = none := by
  have hm := matchPat_none_pre o c pre (L ++ ('"' :: ("@ja".data ++ suf))) hpre
  rw [List.cons_append, ← canonTail_split, ← canonLine_def] at hm
  exact hm

theorem searchPat_canonLine (o L suf : List Char) (hsuf : '"' ∉ suf)
    (hL : '"' ∉ L) (ho : '"' ∉ o) :
    ∀ pre, '"' ∉ pre →
      searchPat o (canonHasLabelLine pre L suf) = decide (o = L) := by
  intro pre
  induction pre with
  | nil =>
    intro _
    have h1 : canonTail L suf =
        'n' :: ("ewskg:hasLabel".data ++
          (' ' :: ('"' :: (L ++ ('"' :: ("@ja".data ++ suf)))))) := by
      rw [canonTail, hasLabelLit_eq]
      rfl
    have hjs : '"' ∉ "@ja".data ++ suf := by
      intro hm
      rcases List.mem_append.mp hm with h | h
      · exact absurd h (by decide)
      · exact hsuf h
    have hrest : searchPat o ("ewskg:hasLabel".data ++
        (' ' :: ('"' :: (L ++ ('"' :: ("@ja".data ++ suf)))))) = false := by
      have hre : ("ewskg:hasLabel".data ++
          (' ' :: ('"' :: (L ++ ('"' :: ("@ja".data ++ suf)))))) =
          "ewskg:hasLabel ".data ++ ('"' :: (L ++ ('"' :: ("@ja".data ++ suf)))) := by
        rw [show "ewskg:hasLabel ".data = "ewskg:hasLabel".data ++ [' '] from by decide]
        simp [List.append_assoc]
      rw [hre]
      exact searchPat_false_inner o L ("@ja".data ++ suf) hL hjs
        ("ewskg:hasLabel ".data) (by decide) (by decide)
    rw [canonLine_nil, h1, searchPat_cons, ← h1,
      matchPat_canonTail o L suf ho hL, hrest]
    by_cases h : o = L <;> simp [h]
  | cons c pre ih =>
    intro hpre
    rw [canonLine_cons, searchPat_cons,
      matchPat_none_canonLine_pre o c pre L suf hpre]
    simp only [Option.isSome_none, Bool.false_or]
    exact ih (fun hm => hpre (List.mem_cons_of_mem _ hm))

theorem subAllAux_canonLine (o v L suf : List Char) (hsuf : '"' ∉ suf)
    (ho : '"' ∉ o) (hL : '"' ∉ L) (hoL : o = L) :
    ∀ pre, '"' ∉ pre → ∀ fuel, pre.length + 1 ≤ fuel →
      subAllAux o v fuel (canonHasLabelLine pre L suf) =
        canonHasLabelLine pre v suf := by
  intro pre
  induction pre with
  | nil =>
    intro _ fuel hfuel
    cases fuel with
    | zero => omega
    | succ f =>
      rw [canonLine_nil]
      unfold subAllAux
      rw [matchPat_canonTail o L suf ho hL, if_pos hoL]
      dsimp only
      rw [subAllAux_id o v f suf (searchPat_false_of_no_quote o suf hsuf)]
      rw [patReplacement_canonTail, canonLine_nil]
  | cons c pre ih =>
    intro hpre fuel hfuel
    cases fuel with
    | zero => rw [List.length_cons] at hfuel; omega
    | succ f =>
      rw [canonLine_cons]
      unfold subAllAux
      rw [matchPat_none_canonLine_pre o c pre L suf hpre]
      dsimp only
      rw [ih (fun hm => hpre (List.mem_cons_of_mem _ hm)) f
        (by rw [List.length_cons] at hfuel; omega)]
      rw [canonLine_cons]

theorem isPrefixOf_append (p r : List Char) : p.isPrefixOf (p ++ r) = true := by
  induction p with
  | nil => simp [List.isPrefixOf]
  | cons a p ih => simp [List.isPrefixOf, ih]

theorem pyIn_canonLine (pre L suf : List Char) :
    pyIn hasLabelLit (canonHasLabelLine pre L suf) = true := by
  induction pre with
  | nil =>
    have h1 : canonHasLabelLine [] L suf =
        'n' :: ("ewskg:hasLabel".data ++
          (' ' :: ('"' :: (L ++ ('"' :: ("@ja".data ++ suf)))))) := by
      rw [canonLine_nil, canonTail, hasLabelLit_eq]
      rfl
    rw [h1]
    unfold pyIn
    rw [hasLabelLit_eq]
    simp [List.isPrefixOf, isPrefixOf_append]
  | cons c pre ih =>
    rw [canonLine_cons]
    unfold pyIn
    rw [ih]
    simp

theorem applyEntry_fold_skip (pre Lc suf : List Char)
    (hq : '"' ∉ Lc) (hpre : '"' ∉ pre) (hsuf : '"' ∉ suf) :
    ∀ (ms : List (String × String)),
      (∀ kv ∈ ms, '"' ∉ kv.1.data) →
      (∀ kv ∈ ms, kv.1 ≠ kv.2 → kv.1.data ≠ Lc) →
      ∀ k, ms.foldl applyEntry (canonHasLabelLine pre Lc suf, k) =
        (canonHasLabelLine pre Lc suf, k) := by
  intro ms
  induction ms with
  | nil => intro _ _ k; rfl
  | cons kv ms ih =>
    intro hkeys hmiss k
    rw [List.foldl_cons]
    have hstep : applyEntry (canonHasLabelLine pre Lc suf, k) kv =
        (canonHasLabelLine pre Lc suf, k) := by
      by_cases heq : kv.1 = kv.2
      · rw [applyEntry, if_pos heq]
      · have hsearch : searchPat kv.1.data (canonHasLabelLine pre Lc suf) = false := by
          rw [searchPat_canonLine kv.1.data Lc suf hsuf hq
            (hkeys kv (List.mem_cons_self _ _)) pre hpre]
          simp [hmiss kv (List.mem_cons_self _ _) heq]
        rw [applyEntry, if_neg heq, if_neg (by simp [hsearch])]
    rw [hstep]
    exact ih (fun kv2 h => hkeys kv2 (List.mem_cons_of_mem _ h))
      (fun kv2 h hne => hmiss kv2 (List.mem_cons_of_mem _ h) hne) k

theorem applyEntry_fold_run (M : List (String × String))
    (hkeysM : ∀ kv ∈ M, '"' ∉ kv.1.data ∧ '"' ∉ kv.2.data)
    (pre suf : List Char) (hpre : '"' ∉ pre) (hsuf : '"' ∉ suf) :
    ∀ (ms : List (String × String)), (∀ kv ∈ ms, kv ∈ M) →
      ∀ (Lc : List Char) (k : Nat), '"' ∉ Lc →
      ∃ Lf kf,
        ms.foldl applyEntry (canonHasLabelLine pre Lc suf, k) =
          (canonHasLabelLine pre Lf suf, kf) ∧
        '"' ∉ Lf ∧
        ((Lf = Lc ∧ ∀ kv ∈ ms, kv.1 ≠ kv.2 → kv.1.data ≠ Lc) ∨
         (∃ kv0, kv0 ∈ M ∧ kv0.1 ≠ kv0.2 ∧ Lf = kv0.2.data)) := by
  intro ms
  induction ms with
  | nil =>
    intro _ Lc k hq
    exact ⟨Lc, k, rfl, hq,
      Or.inl ⟨rfl, fun kv h => absurd h (List.not_mem_nil kv)⟩⟩
  | cons kv ms ih =>
    intro hms Lc k hq
    have hkvM : kv ∈ M := hms kv (List.mem_cons_self _ _)
    have hmsM : ∀ kv2 ∈ ms, kv2 ∈ M := fun kv2 h => hms kv2 (List.mem_cons_of_mem _ h)
    rw [List.foldl_cons]
    by_cases heq : kv.1 = kv.2
    · have hstep : applyEntry (canonHasLabelLine pre Lc suf, k) kv =
          (canonHasLabelLine pre Lc suf, k) := by
        rw [applyEntry, if_pos heq]
      rw [hstep]
      obtain ⟨Lf, kf, hfold, hq2, hd⟩ := ih hmsM Lc k hq
      refine ⟨Lf, kf, hfold, hq2, ?_⟩
      rcases hd with ⟨hLf, hnone⟩ | hr
      · refine Or.inl ⟨hLf, fun kv2 h2 hne2 => ?_⟩
        rcases List.mem_cons.mp h2 with h2 | h2
        · subst h2; exact absurd heq hne2
        · exact hnone kv2 h2 hne2
      · exact Or.inr hr
    · by_cases hkey : kv.1.data = Lc
      · have hsearch : searchPat kv.1.data (canonHasLabelLine pre Lc suf) = true := by
          rw [searchPat_canonLine kv.1.data Lc suf hsuf hq (hkeysM kv hkvM).1 pre hpre]
          simp [hkey]
        have hlen : pre.length + 1 ≤ (canonHasLabelLine pre Lc suf).length := by
          simp [canonHasLabelLine, canonTail, hasLabelLit, List.length_append]
        have hsub : subAllAux kv.1.data kv.2.data
            (canonHasLabelLine pre Lc suf).length
            (canonHasLabelLine pre Lc suf) = canonHasLabelLine pre kv.2.data suf :=
          subAllAux_canonLine kv.1.data kv.2.data Lc suf hsuf (hkeysM kv hkvM).1 hq
            hkey pre hpre (canonHasLabelLine pre Lc suf).length hlen
        have hstep : applyEntry (canonHasLabelLine pre Lc suf, k) kv =
            (canonHasLabelLine pre kv.2.data suf, k + 1) := by
          rw [applyEntry, if_neg heq]
          dsimp only
          rw [if_pos hsearch, hsub]
        rw [hstep]
        obtain ⟨Lf, kf, hfold, hq2, hd⟩ :=
          ih hmsM kv.2.data (k + 1) (hkeysM kv hkvM).2
        refine ⟨Lf, kf, hfold, hq2, Or.inr ?_⟩
        rcases hd with ⟨hLf, _⟩ | hr
        · exact ⟨kv, hkvM, heq, hLf⟩
        · exact hr
      · have hsearch : searchPat kv.1.data (canonHasLabelLine pre Lc suf) = false := by
          rw [searchPat_canonLine kv.1.data Lc suf hsuf hq (hkeysM kv hkvM).1 pre hpre]
          simp [hkey]
        have hstep : applyEntry (canonHasLabelLine pre Lc suf, k) kv =
            (canonHasLabelLine pre Lc suf, k) := by
          rw [applyEntry, if_neg heq, if_neg (by simp [hsearch])]
        rw [hstep]
        obtain ⟨Lf, kf, hfold, hq2, hd⟩ := ih hmsM Lc k hq
        refine ⟨Lf, kf, hfold, hq2, ?_⟩
        rcases hd with ⟨hLf, hnone⟩ | hr
        · refine Or.inl ⟨hLf, fun kv2 h2 hne2 => ?_⟩
          rcases List.mem_cons.mp h2 with h2 | h2
          · subst h2; exact hkey
          · exact hnone kv2 h2 hne2
        · exact Or.inr hr

theorem applyLine_idem (mapping : List (String × String))
    (hkeys : ∀ kv ∈ mapping, '"' ∉ kv.1.data ∧ '"' ∉ kv.2.data)
    (hunchained : ∀ kv ∈ mapping, kv.1 ≠ kv.2 →
      ∀ kv2 ∈ mapping, kv2.1 ≠ kv2.2 → kv.2 ≠ kv2.1)
    (line : List Char)
    (hline : pyIn hasLabelLit line = false ∨
      ∃ pre L suf, line = canonHasLabelLine pre L suf ∧
        '"' ∉ pre ∧ '"' ∉ suf ∧ '"' ∉ L) :
    applyLine mapping (applyLine mapping line).1 = ((applyLine mapping line).1, 0) := by
  rcases hline with hinf | ⟨pre, L, suf, hcanon, hpre, hsuf, hLq⟩
  · have h1 : applyLine mapping line = (line, 0) := by
      rw [applyLine, if_neg (by simp [hinf])]
    rw [h1]
    exact h1
  · subst hcanon
    obtain ⟨Lf, kf, hfold, hq, hdisj⟩ :=
      applyEntry_fold_run mapping hkeys pre suf hpre hsuf mapping
        (fun kv h => h) L 0 hLq
    have hmiss : ∀ kv ∈ mapping, kv.1 ≠ kv.2 → kv.1.data ≠ Lf := by
      rcases hdisj with ⟨hLfL, hnone⟩ | ⟨kv0, hkv0, hkvne, hLf⟩
      · intro kv hm hne
        rw [hLfL]
        exact hnone kv hm hne
      · intro kv hm hne hkeyeq
        have hstr : kv.1 = kv0.2 := by
          apply String.ext
          rw [hkeyeq, hLf]
        exact (hunchained kv0 hkv0 hkvne kv hm hne) hstr.symm
    have h1 : applyLine mapping (canonHasLabelLine pre L suf) =
        (canonHasLabelLine pre Lf suf, kf) := by
      rw [applyLine, if_pos (pyIn_canonLine pre L suf)]
      exact hfold
    rw [h1]
    rw [applyLine, if_pos (pyIn_canonLine pre Lf suf)]
    exact applyEntry_fold_skip pre Lf suf hq hpre hsuf mapping
      (fun kv h => (hkeys kv h).1) hmiss 0

theorem applyNorm_fold_eq (mapping : List (String × String)) :
    ∀ (corpus : List (List Char)) (A : List (List Char)) (k : Nat),
      corpus.foldl
        (fun acc line =>
          let r := applyLine mapping line
          (acc.1 ++ [r.1], acc.2 + r.2)) (A, k) =
      (A ++ corpus.map (fun l => (applyLine mapping l).1),
       k + (corpus.map (fun l => (applyLine mapping l).2)).sum) := by
  intro corpus
  induction corpus with
  | nil => intro A k; simp
  | cons l corpus ih =>
    intro A k
    rw [List.foldl_cons]
    dsimp only
    rw [ih]
    simp [List.append_assoc, Nat.add_assoc]

theorem applyLine_idem_map (mapping : List (String × String))
    (corpus : List (List Char))
    (h : ∀ line ∈ corpus,
      applyLine mapping (applyLine mapping line).1 = ((applyLine mapping line).1, 0)) :
    (corpus.map (fun l => (applyLine mapping l).1)).map
      (fun l => (applyLine mapping l).1) =
      corpus.map (fun l => (applyLine mapping l).1) ∧
    ((corpus.map (fun l => (applyLine mapping l).1)).map
      (fun l => (applyLine mapping l).2)).sum = 0 := by
  induction corpus with
  | nil => exact ⟨rfl, rfl⟩
  | cons l corpus ih =>
    have hl := h l (List.mem_cons_self _ _)
    have iht := ih (fun x hx => h x (List.mem_cons_of_mem _ hx))
    constructor
    · simp only [List.map_cons]
      rw [iht.1, hl]
    · simp only [List.map_cons, List.sum_cons]
      rw [iht.2, hl]

/-- C9 amended: the retroactive rewrite is idempotent on canonically
shaped corpora for quote-free unchained mappings — when every line
either lacks `newskg:hasLabel` or is in the serializer's canonical
shape (arbitrary quote-free prefix and suffix around one
`newskg:hasLabel "label"@ja` occurrence) with a quote-free label, the
mapping's originals and normalized values contain no quote character,
and no normalized value is itself the original of a changing pair,
rerunning with the same mapping on the rewritten corpus performs zero
replacements and returns its input unchanged. For chained mappings this
fails (see the counterexample): a value re-matched as a later original
is rewritten again on the second run. -/
theorem C9_rewrite_idempotent_unchained (mapping : List (String × String))
    (corpus : List (List Char))
    (hkeys : ∀ kv ∈ mapping, '"' ∉ kv.1.data ∧ '"' ∉ kv.2.data)
    (hunchained : ∀ kv ∈ mapping, kv.1 ≠ kv.2 →
      ∀ kv2 ∈ mapping, kv2.1 ≠ kv2.2 → kv.2 ≠ kv2.1)
    (hcorpus : ∀ line ∈ corpus,
      pyIn hasLabelLit line = false ∨
      ∃ pre L suf, line = canonHasLabelLine pre L suf ∧
        '"' ∉ pre ∧ '"' ∉ suf ∧ '"' ∉ L) :
    applyNormalizationToRdf mapping
      (applyNormalizationToRdf mapping corpus).1 =
      ((applyNormalizationToRdf mapping corpus).1, 0) := by
  have hrun1 : applyNormalizationToRdf mapping corpus =
      (corpus.map (fun l => (applyLine mapping l).1),
       (corpus.map (fun l => (applyLine mapping l).2)).sum) := by
    rw [applyNormalizationToRdf, applyNorm_fold_eq mapping corpus [] 0]
    simp
  have hml := applyLine_idem_map mapping corpus
    (fun line hm => applyLine_idem mapping hkeys hunchained line (hcorpus line hm))
  rw [hrun1]
  dsimp only
  rw [applyNormalizationToRdf,
    applyNorm_fold_eq mapping (corpus.map (fun l => (applyLine mapping l).1)) [] 0]
  rw [List.nil_append, hml.1, hml.2]

/-- C9 witness: the unchained one-pair mapping `Tanaka → 田中` on the
one-line canonical corpus `    newskg:hasLabel "Tanaka"@ja ;` (a label
and line freely containing the letter `n`) satisfies the amended
idempotence: the second run returns its input with zero replacements. -/
theorem C9_witness :
    applyNormalizationToRdf [("Tanaka", "田中")]
      (applyNormalizationToRdf [("Tanaka", "田中")]
        [canonHasLabelLine "    ".data "Tanaka".data " ;".data]).1 =
      ((applyNormalizationToRdf [("Tanaka", "田中")]
        [canonHasLabelLine "    ".data "Tanaka".data " ;".data]).1, 0) :=
  C9_rewrite_idempotent_unchained [("Tanaka", "田中")]
    [canonHasLabelLine "    ".data "Tanaka".data " ;".data]
    (by decide) (by decide)
    (fun line hm => by
      rw [List.mem_singleton] at hm
      subst hm
      exact Or.inr ⟨"    ".data, "Tanaka".data, " ;".data, rfl, by decide,
        by decide, by decide⟩)

end NewsKG
